import Mathlib

/-!
# YUView: container playlist items (overlay and difference)

A shallow embedding of `source/playlistItemOverlay.cpp`,
`source/playlistItemDifference.cpp`, the virtual interface declared in
`source/playlistItem.h` and the class template `matrix` of
`statisticsparser.h`.

Conventions of the embedding.

* C++ `int` is `Int`.  Signed overflow is undefined behaviour in C++, so the
  embedding describes the executions in which no `int` operation overflows.
  Integer division is the truncating division of C++ (`Int.tdiv`).
* `QPoint`, `QSize` and `QRect` are the Qt value classes: a `QRect` stores the
  four inclusive edge coordinates `x1, y1, x2, y2`, and every member function
  used by the sources is transcribed from Qt's `qrect.h` / `qrect.cpp`.
* A child item is a value of an arbitrary type `σ` (the child's whole private
  state) together with a record `playlistItemClass σ` of its virtual member
  functions.  Children are exclusively owned by their container, so a call on
  one child changes that child's state only.
* `emit` appends to a log of emitted signals that is carried in the state.
-/

namespace YUView

/-! ## Qt value classes -/

/-- Qt `QPoint`: a point with integer coordinates. -/
structure QPoint where
  xp : Int
  yp : Int
  deriving DecidableEq, Repr

/-- Qt `QSize`: integer width and height. -/
structure QSize where
  wd : Int
  ht : Int
  deriving DecidableEq, Repr

/-- Qt `QRect`: the inclusive left, top, right and bottom edge coordinates. -/
structure QRect where
  x1 : Int
  y1 : Int
  x2 : Int
  y2 : Int
  deriving DecidableEq, Repr

namespace QPoint

/-- Qt `operator+(const QPoint &, const QPoint &)`. -/
def add (p q : QPoint) : QPoint := ⟨p.xp + q.xp, p.yp + q.yp⟩

/-- Qt `operator-(const QPoint &, const QPoint &)`. -/
def sub (p q : QPoint) : QPoint := ⟨p.xp - q.xp, p.yp - q.yp⟩

end QPoint

namespace QRect

/-- Qt `QRect::QRect()`: the null rectangle `x1 = y1 = 0`, `x2 = y2 = -1`. -/
def null : QRect := ⟨0, 0, -1, -1⟩

/-- Qt `QRect::isNull`: `x2 == x1 - 1 && y2 == y1 - 1`. -/
def isNull (r : QRect) : Bool := r.x2 == r.x1 - 1 && r.y2 == r.y1 - 1

/-- Qt `QRect::isEmpty`: `x1 > x2 || y1 > y2`. -/
def isEmpty (r : QRect) : Bool := decide (r.x1 > r.x2) || decide (r.y1 > r.y2)

/-- Qt `QRect::width`: `x2 - x1 + 1`. -/
def width (r : QRect) : Int := r.x2 - r.x1 + 1

/-- Qt `QRect::height`: `y2 - y1 + 1`. -/
def height (r : QRect) : Int := r.y2 - r.y1 + 1

/-- Qt `QRect::size`. -/
def size (r : QRect) : QSize := ⟨r.width, r.height⟩

/-- Qt `QRect::left`. -/
def left (r : QRect) : Int := r.x1

/-- Qt `QRect::top`. -/
def top (r : QRect) : Int := r.y1

/-- Qt `QRect::right`. -/
def right (r : QRect) : Int := r.x2

/-- Qt `QRect::bottom`. -/
def bottom (r : QRect) : Int := r.y2

/-- Qt `QRect::topLeft`. -/
def topLeft (r : QRect) : QPoint := ⟨r.x1, r.y1⟩

/-- Qt `QRect::topRight`. -/
def topRight (r : QRect) : QPoint := ⟨r.x2, r.y1⟩

/-- Qt `QRect::bottomLeft`. -/
def bottomLeft (r : QRect) : QPoint := ⟨r.x1, r.y2⟩

/-- Qt `QRect::bottomRight`. -/
def bottomRight (r : QRect) : QPoint := ⟨r.x2, r.y2⟩

/-- Qt `QRect::center`: `QPoint((x1+x2)/2, (y1+y2)/2)` with the truncating
integer division of C++. -/
def center (r : QRect) : QPoint := ⟨Int.tdiv (r.x1 + r.x2) 2, Int.tdiv (r.y1 + r.y2) 2⟩

/-- Qt `QRect::setSize`: `x2 = s.width() + x1 - 1; y2 = s.height() + y1 - 1`. -/
def setSize (r : QRect) (s : QSize) : QRect :=
  { r with x2 := s.wd + r.x1 - 1, y2 := s.ht + r.y1 - 1 }

/-- Qt `QRect::moveCenter`:
`w = x2 - x1; h = y2 - y1; x1 = p.x() - w/2; y1 = p.y() - h/2; x2 = x1 + w; y2 = y1 + h`. -/
def moveCenter (r : QRect) (p : QPoint) : QRect :=
  let w := r.x2 - r.x1
  let h := r.y2 - r.y1
  let nx1 := p.xp - Int.tdiv w 2
  let ny1 := p.yp - Int.tdiv h 2
  ⟨nx1, ny1, nx1 + w, ny1 + h⟩

/-- Qt `QRect::moveLeft`: `x2 += (pos - x1); x1 = pos`. -/
def moveLeft (r : QRect) (pos : Int) : QRect :=
  { r with x2 := r.x2 + (pos - r.x1), x1 := pos }

/-- Qt `QRect::moveTop`: `y2 += (pos - y1); y1 = pos`. -/
def moveTop (r : QRect) (pos : Int) : QRect :=
  { r with y2 := r.y2 + (pos - r.y1), y1 := pos }

/-- Qt `QRect::moveRight`: `x1 += (pos - x2); x2 = pos`. -/
def moveRight (r : QRect) (pos : Int) : QRect :=
  { r with x1 := r.x1 + (pos - r.x2), x2 := pos }

/-- Qt `QRect::moveBottom`: `y1 += (pos - y2); y2 = pos`. -/
def moveBottom (r : QRect) (pos : Int) : QRect :=
  { r with y1 := r.y1 + (pos - r.y2), y2 := pos }

/-- Qt `QRect::moveTopLeft`: `moveLeft(p.x()); moveTop(p.y())`. -/
def moveTopLeft (r : QRect) (p : QPoint) : QRect := (r.moveLeft p.xp).moveTop p.yp

/-- Qt `QRect::moveTopRight`: `moveRight(p.x()); moveTop(p.y())`. -/
def moveTopRight (r : QRect) (p : QPoint) : QRect := (r.moveRight p.xp).moveTop p.yp

/-- Qt `QRect::moveBottomLeft`: `moveLeft(p.x()); moveBottom(p.y())`. -/
def moveBottomLeft (r : QRect) (p : QPoint) : QRect := (r.moveLeft p.xp).moveBottom p.yp

/-- Qt `QRect::moveBottomRight`: `moveRight(p.x()); moveBottom(p.y())`. -/
def moveBottomRight (r : QRect) (p : QPoint) : QRect := (r.moveRight p.xp).moveBottom p.yp

/-- Qt `QRect::translate(const QPoint &)`: all four edges are shifted. -/
def translate (r : QRect) (p : QPoint) : QRect :=
  ⟨r.x1 + p.xp, r.y1 + p.yp, r.x2 + p.xp, r.y2 + p.yp⟩

/-- Qt `QRect::united` (`operator|`): a null operand is ignored; otherwise both
operands are normalized edge by edge and the result takes the least left and
top edge and the greatest right and bottom edge. -/
def united (a r : QRect) : QRect :=
  if a.isNull then r
  else if r.isNull then a
  else
    let l1 := if a.x2 - a.x1 + 1 < 0 then a.x2 else a.x1
    let r1 := if a.x2 - a.x1 + 1 < 0 then a.x1 else a.x2
    let t1 := if a.y2 - a.y1 + 1 < 0 then a.y2 else a.y1
    let b1 := if a.y2 - a.y1 + 1 < 0 then a.y1 else a.y2
    let l2 := if r.x2 - r.x1 + 1 < 0 then r.x2 else r.x1
    let r2 := if r.x2 - r.x1 + 1 < 0 then r.x1 else r.x2
    let t2 := if r.y2 - r.y1 + 1 < 0 then r.y2 else r.y1
    let b2 := if r.y2 - r.y1 + 1 < 0 then r.y1 else r.y2
    ⟨min l1 l2, min t1 t2, max r1 r2, max b1 b2⟩

end QRect

/-! ## The playlist item interface (`playlistItem.h`) -/

/-- Modelled from the spec: the enumeration `itemLoadingState` is declared in
`typedef.h`, which is not part of the sources at hand; the spec names its three
values `LoadingNeeded`, `LoadingNotNeeded` and `LoadingNeededDoubleBuffer`. -/
inductive itemLoadingState where
  | LoadingNeeded
  | LoadingNotNeeded
  | LoadingNeededDoubleBuffer
  deriving DecidableEq, Repr

open itemLoadingState

/-- Modelled from the spec: `indexRange` (declared in `typedef.h`) is the pair
`(first, second)` of the inclusive start and end frame index. -/
abbrev indexRange := Int × Int

/-- Modelled from the spec: `ValuePairList` (declared in `typedef.h`) is a list
of (name, value) string pairs. -/
abbrev ValuePairList := List (String × String)

/-- Modelled from the spec: `ValuePairListSets` (declared in `typedef.h`) is a
list of labeled value sets, each a title with a `ValuePairList`. -/
abbrev ValuePairListSets := List (String × ValuePairList)

/-- The signals declared by `playlistItem` (`playlistItem.h`, `signals:`). -/
inductive Signal where
  | signalItemChanged (redraw : Bool)
  | signalItemCacheCleared
  | signalItemDoubleBufferLoaded
  deriving DecidableEq, Repr

/-- The virtual member functions of `playlistItem` that the containers call on
their children, as functions of the child's state `σ`. -/
structure playlistItemClass (σ : Type) where
  /-- The member `virtual QSize getSize() const`. -/
  getSize : σ → QSize
  /-- The member `virtual itemLoadingState needsLoading(int frameIdx, bool loadRawValues)`. -/
  needsLoading : σ → Int → Bool → itemLoadingState
  /-- The member `virtual void loadFrame(int frameIdx, bool playback, bool loadRawData)`. -/
  loadFrame : σ → Int → Bool → Bool → σ
  /-- The member `virtual ValuePairListSets getPixelValues(const QPoint &pixelPos, int frameIdx)`. -/
  getPixelValues : σ → QPoint → Int → ValuePairListSets

/-- The base class implementation in `playlistItem.h` for a child whose state
is just its size: `needsLoading` returns `LoadingNotNeeded`, `loadFrame` does
nothing and `getPixelValues` returns an empty list. -/
def playlistItemBase : playlistItemClass QSize where
  getSize := fun s => s
  needsLoading := fun _ _ _ => LoadingNotNeeded
  loadFrame := fun s _ _ _ => s
  getPixelValues := fun _ _ _ => []

/-! ## `playlistItemOverlay` -/

/-- The data members of a `playlistItemOverlay` that the embedded member
functions read or write.  `childList` is the list of child playlist items
(`child(i)` is `childList[i]`, every child of a container being a playlist
item); `uiAlignmentMode` is the value of `ui.alignmentMode->currentIndex()`;
`emitted` is the log of the signals the item has emitted, oldest first. -/
structure playlistItemOverlay (σ : Type) where
  childList : List σ
  childItems : List QRect
  boundingRect : QRect
  alignmentMode : Int
  manualAlignment : QPoint
  uiAlignmentMode : Int
  startEndFrame : indexRange
  emitted : List Signal

namespace playlistItemOverlay

variable {σ : Type}

/-- One of the two loops of `playlistItemOverlay::needsLoading`:
`for (auto child : childList) if (child->needsLoading(frameIdx, loadRawdata) == st) return st;`
The result tells whether the loop returned. -/
def needsLoadingLoop (ops : playlistItemClass σ) (frameIdx : Int) (loadRawdata : Bool)
    (st : itemLoadingState) : List σ → Bool
  | [] => false
  | child :: rest =>
    if ops.needsLoading child frameIdx loadRawdata = st then true
    else needsLoadingLoop ops frameIdx loadRawdata st rest

/-- The function `playlistItemOverlay::needsLoading`. -/
def needsLoading (ops : playlistItemClass σ) (s : playlistItemOverlay σ) (frameIdx : Int)
    (loadRawdata : Bool) : itemLoadingState :=
  if needsLoadingLoop ops frameIdx loadRawdata LoadingNeeded s.childList then LoadingNeeded
  else if needsLoadingLoop ops frameIdx loadRawdata LoadingNeededDoubleBuffer s.childList then
    LoadingNeededDoubleBuffer
  else LoadingNotNeeded

/-- A recorded call `child(i)->loadFrame(frameIdx, playing, loadRawdata)`. -/
structure LoadCall where
  child : Nat
  frameIdx : Int
  playing : Bool
  loadRawdata : Bool
  deriving DecidableEq, Repr

/-- The loop of `playlistItemOverlay::loadFrame` over the children from index
`i` on: the children after the loop and the `loadFrame` calls made, in the
order they were made. -/
def loadFrameLoop (ops : playlistItemClass σ) (frameIdx : Int) (playing loadRawdata : Bool) :
    List σ → Nat → List σ × List LoadCall
  | [], _ => ([], [])
  | c :: rest, i =>
    if ops.needsLoading c frameIdx loadRawdata ≠ LoadingNotNeeded then
      let c1 := ops.loadFrame c frameIdx playing loadRawdata
      let out := loadFrameLoop ops frameIdx playing loadRawdata rest (i + 1)
      (c1 :: out.1, ⟨i, frameIdx, playing, loadRawdata⟩ :: out.2)
    else
      let out := loadFrameLoop ops frameIdx playing loadRawdata rest (i + 1)
      (c :: out.1, out.2)

/-- The function `playlistItemOverlay::loadFrame`: the item after the call and
the calls forwarded to the children. -/
def loadFrame (ops : playlistItemClass σ) (s : playlistItemOverlay σ) (frameIdx : Int)
    (playing loadRawdata : Bool) : playlistItemOverlay σ × List LoadCall :=
  let out := loadFrameLoop ops frameIdx playing loadRawdata s.childList 0
  ({ s with childList := out.1 }, out.2)

/-- The alignment chain of `playlistItemOverlay::updateLayout` for one child:
the target rectangle moved according to the alignment mode.  The final
`assert(alignmentMode == 4)` fails for a mode outside `0..8`. -/
def alignTarget (alignmentMode : Int) (firstItemRect targetRect : QRect) : Option QRect :=
  if alignmentMode = 0 then some (targetRect.moveTopLeft firstItemRect.topLeft)
  else if alignmentMode = 1 then some (targetRect.moveTop firstItemRect.top)
  else if alignmentMode = 2 then some (targetRect.moveTopRight firstItemRect.topRight)
  else if alignmentMode = 3 then some (targetRect.moveLeft firstItemRect.left)
  else if alignmentMode = 5 then some (targetRect.moveRight firstItemRect.right)
  else if alignmentMode = 6 then some (targetRect.moveBottomLeft firstItemRect.bottomLeft)
  else if alignmentMode = 7 then some (targetRect.moveBottom firstItemRect.bottom)
  else if alignmentMode = 8 then some (targetRect.moveBottomRight firstItemRect.bottomRight)
  else if alignmentMode = 4 then some targetRect
  else none

/-- The rectangle that the loop body of `playlistItemOverlay::updateLayout`
computes for one child: a rectangle of the child's size centered on the origin,
aligned to the first child's rectangle and translated by the manual offset.
The result is `none` when the assertion fails. -/
def placeChild (ops : playlistItemClass σ) (alignmentMode : Int) (manualAlignment : QPoint)
    (firstItemRect : QRect) (childItem : σ) : Option QRect :=
  let childSize := ops.getSize childItem
  let targetRect := (QRect.null.setSize childSize).moveCenter ⟨0, 0⟩
  match alignTarget alignmentMode firstItemRect targetRect with
  | none => none
  | some aligned => some (aligned.translate manualAlignment)

/-- The loop `for (int i = 1; i < childList.count(); i++)` of
`playlistItemOverlay::updateLayout` for the children from index `i` on: the
rectangle of each child is written to `childItems[i]` and united into
`boundingRect`.  The result is `none` when the assertion fails. -/
def alignLoop (ops : playlistItemClass σ) (alignmentMode : Int) (manualAlignment : QPoint)
    (firstItemRect : QRect) : List σ → Nat → List QRect → QRect → Option (List QRect × QRect)
  | [], _, childItems, boundingRect => some (childItems, boundingRect)
  | childItem :: rest, i, childItems, boundingRect =>
    match placeChild ops alignmentMode manualAlignment firstItemRect childItem with
    | none => none
    | some targetRect =>
      alignLoop ops alignmentMode manualAlignment firstItemRect rest (i + 1)
        (childItems.set i targetRect) (boundingRect.united targetRect)

/-- The function `playlistItemOverlay::updateLayout(bool checkNumber)`.  The
result is `none` when `assert(alignmentMode == 4)` fails.  The local
`alignmentMode` is read from `ui.alignmentMode->currentIndex()`, and
`getFirstChildPlaylistItem()` (a member of the container base class) is the
first entry of `childList`. -/
def updateLayout (ops : playlistItemClass σ) (s : playlistItemOverlay σ) (checkNumber : Bool) :
    Option (playlistItemOverlay σ) :=
  match s.childList with
  | [] => some { s with childItems := [], boundingRect := QRect.null }
  | firstItem :: rest =>
    if checkNumber && s.childList.length == s.childItems.length then some s
    else
      let childItems :=
        if s.childItems.length ≠ s.childList.length then
          List.replicate s.childList.length QRect.null
        else s.childItems
      let boundingRect := (s.boundingRect.setSize (ops.getSize firstItem)).moveCenter ⟨0, 0⟩
      let firstItemRect := (QRect.null.setSize (ops.getSize firstItem)).moveCenter ⟨0, 0⟩
      let childItems := childItems.set 0 firstItemRect
      match alignLoop ops s.uiAlignmentMode s.manualAlignment firstItemRect rest 1
          childItems boundingRect with
      | none => none
      | some out => some { s with childItems := out.1, boundingRect := out.2 }

/-- The rectangle `firstItemRect` of `playlistItemOverlay::updateLayout`: a
rectangle of the first child's size centered on the origin. -/
def firstItemRect (ops : playlistItemClass σ) (firstItem : σ) : QRect :=
  (QRect.null.setSize (ops.getSize firstItem)).moveCenter ⟨0, 0⟩

/-- The rectangles computed by the loop body for a list of children, with the
null rectangle standing in where the assertion would fail. -/
def placedRects (ops : playlistItemClass σ) (alignmentMode : Int) (manualAlignment : QPoint)
    (firstRect : QRect) (rest : List σ) : List QRect :=
  rest.map (fun c => (placeChild ops alignmentMode manualAlignment firstRect c).getD QRect.null)

/-- An overlay with the given children, alignment mode and manual offset, as
the constructor leaves the other members: no placed rectangles, a null
bounding rectangle, frame range `(-1,-1)` and no signal emitted. -/
def withChildren (children : List σ) (mode : Int) (offset : QPoint) : playlistItemOverlay σ where
  childList := children
  childItems := []
  boundingRect := QRect.null
  alignmentMode := mode
  manualAlignment := offset
  uiAlignmentMode := mode
  startEndFrame := (-1, -1)
  emitted := []

end playlistItemOverlay

/-- The smallest rectangle enclosing two rectangles edge by edge: the least
left and top edge and the greatest right and bottom edge. -/
def QRect.enclose (a r : QRect) : QRect :=
  ⟨min a.x1 r.x1, min a.y1 r.y1, max a.x2 r.x2, max a.y2 r.y2⟩

/-- The smallest enclosing rectangle of a list of rectangles, in the words of
the spec "the union of all placed rectangles": its left and top edge are the
least left and top edge in the list, its right and bottom edge the greatest
right and bottom edge.  For the empty list it is the null rectangle. -/
def enclosingRect : List QRect → QRect
  | [] => QRect.null
  | r :: rs => rs.foldl QRect.enclose r

/-! ## `playlistItemDifference` -/

/-- The part of a child's frame handler that `playlistItemDifference` uses:
`child->getFrameHandler()->getPixelValues(pixelPos, frameIdx)` as a function of
the child's state.  A child of a difference item returns a valid handler
(`playlistItem.h`: "If you want your item to be droppable onto a difference
object, return true here and return a valid video handler"). -/
structure frameHandlerClass (σ : Type) where
  getPixelValues : σ → QPoint → Int → ValuePairList

/-- Modelled from the spec: the member functions of the `videoHandlerDifference`
member `difference` that `playlistItemDifference` calls.  The class is not part
of the sources at hand, so its functions are parameters, as functions of the
handler's state `H`: `needsLoading(frameIdx, loadRawData)`,
`loadFrame(frameIdx, loadToDoubleBuffer)` and `getPixelValues(pixelPos, frameIdx)`. -/
structure videoHandlerDifferenceClass (H : Type) where
  needsLoading : H → Int → Bool → itemLoadingState
  loadFrame : H → Int → Bool → H
  getPixelValues : H → QPoint → Int → ValuePairList

/-- A recorded call `difference.loadFrame(frameIdx, loadToDoubleBuffer)`; the
one-argument call `difference.loadFrame(frameIdx)` has
`loadToDoubleBuffer = false`. -/
structure HandlerLoad where
  frameIdx : Int
  loadToDoubleBuffer : Bool
  deriving DecidableEq, Repr

/-- A recorded pixel query made by `playlistItemDifference::getPixelValues`:
to the frame handler of child `i`, or to the difference handler. -/
inductive PixelQuery where
  | childHandler (i : Nat) (pixelPos : QPoint) (frameIdx : Int)
  | difference (pixelPos : QPoint) (frameIdx : Int)
  deriving DecidableEq, Repr

/-- The data members of a `playlistItemDifference` that the embedded member
functions read or write.  `difference` is the state of the
`videoHandlerDifference` member; `emitted` is the log of emitted signals and
`loads` the log of `difference.loadFrame` calls, both oldest first. -/
structure playlistItemDifference (σ H : Type) where
  childList : List σ
  difference : H
  startEndFrame : indexRange
  maxItemCount : Int
  frameLimitsMax : Bool
  isDifferenceLoading : Bool
  isDifferenceLoadingToDoubleBuffer : Bool
  emitted : List Signal
  loads : List HandlerLoad

namespace playlistItemDifference

variable {σ H : Type}

/-- The constructor `playlistItemDifference::playlistItemDifference()`: the
members set in its body; the handler member and the frame range set up by the
base class constructor are arguments. -/
def construct (difference : H) (startEndFrame : indexRange) : playlistItemDifference σ H where
  childList := []
  difference := difference
  startEndFrame := startEndFrame
  maxItemCount := 2
  frameLimitsMax := false
  isDifferenceLoading := false
  isDifferenceLoadingToDoubleBuffer := false
  emitted := []
  loads := []

/-- The function `playlistItemDifference::getPixelValues`: the returned sets
and the queries made to the handlers, in the order they were made. -/
def getPixelValues (cops : frameHandlerClass σ) (hops : videoHandlerDifferenceClass H)
    (s : playlistItemDifference σ H) (pixelPos : QPoint) (frameIdx : Int) :
    ValuePairListSets × List PixelQuery :=
  let out : ValuePairListSets × List PixelQuery :=
    if h : s.childList.length ≥ 1 then
      ([("Item A", cops.getPixelValues s.childList[0] pixelPos frameIdx)],
        [PixelQuery.childHandler 0 pixelPos frameIdx])
    else ([], [])
  if h : s.childList.length ≥ 2 then
    (out.1 ++ [("Item B", cops.getPixelValues s.childList[1] pixelPos frameIdx),
        ("Diff (A-B)", hops.getPixelValues s.difference pixelPos frameIdx)],
      out.2 ++ [PixelQuery.childHandler 1 pixelPos frameIdx,
        PixelQuery.difference pixelPos frameIdx])
  else out

/-- The primitive statements executed by `playlistItemDifference::loadFrame`. -/
inductive Stmt where
  | setIsDifferenceLoading (b : Bool)
  | setIsDifferenceLoadingToDoubleBuffer (b : Bool)
  | differenceLoadFrame (frameIdx : Int) (loadToDoubleBuffer : Bool)
  | emitSignal (sig : Signal)
  deriving DecidableEq, Repr

/-- The statements that `playlistItemDifference::loadFrame` executes after
`auto state = difference.needsLoading(frameIdx, loadRawData)`, in program
order. -/
def loadFrameBody (state : itemLoadingState) (frameIdx : Int) (playing : Bool)
    (startEndFrame : indexRange) : List Stmt :=
  (if state = LoadingNeeded then
    [Stmt.setIsDifferenceLoading true,
     Stmt.differenceLoadFrame frameIdx false,
     Stmt.setIsDifferenceLoading false,
     Stmt.emitSignal (Signal.signalItemChanged true)]
  else []) ++
  (if playing && (state == LoadingNeeded || state == LoadingNeededDoubleBuffer) then
    let nextFrameIdx := frameIdx + 1
    if nextFrameIdx ≤ startEndFrame.2 then
      [Stmt.setIsDifferenceLoadingToDoubleBuffer true,
       Stmt.differenceLoadFrame nextFrameIdx true,
       Stmt.setIsDifferenceLoadingToDoubleBuffer false,
       Stmt.emitSignal Signal.signalItemDoubleBufferLoaded]
    else []
  else [])

/-- The effect of one statement on the item. -/
def exec (hops : videoHandlerDifferenceClass H) (s : playlistItemDifference σ H) :
    Stmt → playlistItemDifference σ H
  | Stmt.setIsDifferenceLoading b => { s with isDifferenceLoading := b }
  | Stmt.setIsDifferenceLoadingToDoubleBuffer b =>
    { s with isDifferenceLoadingToDoubleBuffer := b }
  | Stmt.differenceLoadFrame frameIdx loadToDoubleBuffer =>
    { s with
      difference := hops.loadFrame s.difference frameIdx loadToDoubleBuffer
      loads := s.loads ++ [⟨frameIdx, loadToDoubleBuffer⟩] }
  | Stmt.emitSignal sig => { s with emitted := s.emitted ++ [sig] }

/-- The item after executing a list of statements. -/
def run (hops : videoHandlerDifferenceClass H) (s : playlistItemDifference σ H) :
    List Stmt → playlistItemDifference σ H
  | [] => s
  | st :: rest => run hops (exec hops s st) rest

/-- The execution of a list of statements: each statement paired with the item
state in which it starts. -/
def steps (hops : videoHandlerDifferenceClass H) (s : playlistItemDifference σ H) :
    List Stmt → List (playlistItemDifference σ H × Stmt)
  | [] => []
  | st :: rest => (s, st) :: steps hops (exec hops s st) rest

/-- The function `playlistItemDifference::loadFrame`: the item when the call
returns. -/
def loadFrame (hops : videoHandlerDifferenceClass H) (s : playlistItemDifference σ H)
    (frameIdx : Int) (playing loadRawData : Bool) : playlistItemDifference σ H :=
  let state := hops.needsLoading s.difference frameIdx loadRawData
  run hops s (loadFrameBody state frameIdx playing s.startEndFrame)

/-- The execution of `playlistItemDifference::loadFrame`, statement by
statement. -/
def loadFrameSteps (hops : videoHandlerDifferenceClass H) (s : playlistItemDifference σ H)
    (frameIdx : Int) (playing loadRawData : Bool) : List (playlistItemDifference σ H × Stmt) :=
  let state := hops.needsLoading s.difference frameIdx loadRawData
  steps hops s (loadFrameBody state frameIdx playing s.startEndFrame)

/-- The `difference.loadFrame` calls made by one call of `loadFrame`: the
entries the call added to the log. -/
def loadFrameLoads (hops : videoHandlerDifferenceClass H) (s : playlistItemDifference σ H)
    (frameIdx : Int) (playing loadRawData : Bool) : List HandlerLoad :=
  (loadFrame hops s frameIdx playing loadRawData).loads.drop s.loads.length

/-- The signals emitted by one call of `loadFrame`: the entries the call added
to the log. -/
def loadFrameSignals (hops : videoHandlerDifferenceClass H) (s : playlistItemDifference σ H)
    (frameIdx : Int) (playing loadRawData : Bool) : List Signal :=
  (loadFrame hops s frameIdx playing loadRawData).emitted.drop s.emitted.length

/-- A difference handler that reports `LoadingNeeded` for every frame and whose
other functions do nothing; its state is `Unit`. -/
def alwaysNeeded : videoHandlerDifferenceClass Unit where
  needsLoading := fun _ _ _ => LoadingNeeded
  loadFrame := fun h _ _ => h
  getPixelValues := fun _ _ _ => []

end playlistItemDifference

/-! ## Containers without children -/

namespace playlistItemOverlay

variable {σ : Type}

/-- The constructor `playlistItemOverlay::playlistItemOverlay()`: no child,
`alignmentMode = 0`, `manualAlignment = QPoint(0,0)` and
`startEndFrame = indexRange(-1,-1)`; the rectangle members are default
constructed.  The index reported by the alignment combo box is an argument. -/
def construct (uiAlignmentMode : Int) : playlistItemOverlay σ where
  childList := []
  childItems := []
  boundingRect := QRect.null
  alignmentMode := 0
  manualAlignment := ⟨0, 0⟩
  uiAlignmentMode := uiAlignmentMode
  startEndFrame := (-1, -1)
  emitted := []

end playlistItemOverlay

/-- Modelled from the spec: the two functions that
`playlistItemDifference::updateChildItems` calls outside the sources at hand,
`child->getFrameHandler()` (a pointer to the child's frame handler, `none` for
`nullptr`) and `difference.setInputVideos(childVideo0, childVideo1)` of
`videoHandlerDifference`, as functions of the child state `σ`, the handler
identity `Φ` and the difference handler state `H`. -/
structure differenceInputsClass (σ Φ H : Type) where
  getFrameHandler : σ → Option Φ
  setInputVideos : H → Option Φ → Option Φ → H

namespace playlistItemDifference

variable {σ Φ H : Type}

/-- The base implementation of `playlistItem.h`,
`virtual indexRange getStartEndFrameLimits() const { return indexRange(-1, -1); }`. -/
def baseStartEndFrameLimits (_item : playlistItemDifference σ H) : indexRange := (-1, -1)

/-- The function `playlistItemDifference::updateChildItems`: the item after
the call and the two handlers passed to `difference.setInputVideos`.  The
virtual function `getStartEndFrameLimits()` is overridden in the container base
class, which is not among the sources at hand, and is a parameter here. -/
def updateChildItems (iops : differenceInputsClass σ Φ H)
    (getStartEndFrameLimits : playlistItemDifference σ H → indexRange)
    (s : playlistItemDifference σ H) : playlistItemDifference σ H × (Option Φ × Option Φ) :=
  let childVideo0 : Option Φ :=
    if h : s.childList.length ≥ 1 then iops.getFrameHandler s.childList[0] else none
  let childVideo1 : Option Φ :=
    if h : s.childList.length ≥ 2 then iops.getFrameHandler s.childList[1] else none
  let s1 := { s with difference := iops.setInputVideos s.difference childVideo0 childVideo1 }
  ({ s1 with startEndFrame := getStartEndFrameLimits s1 }, (childVideo0, childVideo1))

/-- Inputs of a difference item whose children are identified with their frame
handlers and whose handler state records the pair of inputs last set. -/
def recordInputs : differenceInputsClass Nat Nat (Option Nat × Option Nat) where
  getFrameHandler := fun c => some c
  setInputVideos := fun _ a b => (a, b)

end playlistItemDifference

/-! ## Pixel values of an overlay -/

/-- Qt `QRect::contains(const QPoint &p, bool proper)` for `proper = false`,
the default: each axis is normalized (`if (x2 < x1 - 1) { l = x2; r = x1; }`)
and the point must satisfy `l <= p.x() <= r` and `t <= p.y() <= b`. -/
def QRect.contains (r : QRect) (p : QPoint) : Bool :=
  let l := if r.x2 < r.x1 - 1 then r.x2 else r.x1
  let rr := if r.x2 < r.x1 - 1 then r.x1 else r.x2
  if p.xp < l ∨ p.xp > rr then false
  else
    let t := if r.y2 < r.y1 - 1 then r.y2 else r.y1
    let b := if r.y2 < r.y1 - 1 then r.y1 else r.y2
    if p.yp < t ∨ p.yp > b then false else true

namespace playlistItemOverlay

variable {σ : Type}

/-- The name `QString("Item %1 - %2").arg(i).arg(name)` that
`playlistItemOverlay::getPixelValues` gives to a set of child `i`. -/
def itemSetName (i : Nat) (name : String) : String :=
  "Item " ++ toString i ++ " - " ++ name

/-- The inner loop of `playlistItemOverlay::getPixelValues`: the name of every
set of child `i` is replaced by `itemSetName i name`. -/
def renameSets (i : Nat) (childSets : ValuePairListSets) : ValuePairListSets :=
  childSets.map (fun set => (itemSetName i set.1, set.2))

/-- The loop of `playlistItemOverlay::getPixelValues` over the children from
index `i` on, with the sets collected so far.  The result is `none` when
`childItems[i]` is read out of range. -/
def getPixelValuesLoop (ops : playlistItemClass σ) (childItems : List QRect) (relPoint : QPoint)
    (frameIdx : Int) : List σ → Nat → ValuePairListSets → Option ValuePairListSets
  | [], _, newSet => some newSet
  | childItem :: rest, i, newSet =>
    match childItems[i]? with
    | none => none
    | some rect =>
      if rect.contains relPoint then
        let childPixelPos := relPoint.sub rect.topLeft
        let childSets := ops.getPixelValues childItem childPixelPos frameIdx
        getPixelValuesLoop ops childItems relPoint frameIdx rest (i + 1)
          (newSet ++ renameSets i childSets)
      else
        getPixelValuesLoop ops childItems relPoint frameIdx rest (i + 1) newSet

/-- The function `playlistItemOverlay::getPixelValues`.  The result is `none`
when `childItems[i]` is read out of range. -/
def getPixelValues (ops : playlistItemClass σ) (s : playlistItemOverlay σ) (pixelPos : QPoint)
    (frameIdx : Int) : Option ValuePairListSets :=
  let relPoint := s.boundingRect.topLeft.add pixelPos
  getPixelValuesLoop ops s.childItems relPoint frameIdx s.childList 0 []

/-- The sets that the children of an overlay contribute for the translated
point `relPoint`: for each child with its index and placed rectangle, in
child-list order, the renamed sets of the child if the rectangle contains the
point. -/
def contributedSets (ops : playlistItemClass σ) (relPoint : QPoint) (frameIdx : Int)
    (placed : List (Nat × σ × QRect)) : ValuePairListSets :=
  (placed.filter (fun e => e.2.2.contains relPoint)).flatMap
    (fun e => renameSets e.1 (ops.getPixelValues e.2.1 (relPoint.sub e.2.2.topLeft) frameIdx))

/-- A child whose state is its size and whose `getPixelValues` returns one set
named "Values" holding the coordinates of the queried point. -/
def probeItem : playlistItemClass QSize where
  getSize := fun s => s
  needsLoading := fun _ _ _ => LoadingNotNeeded
  loadFrame := fun s _ _ _ => s
  getPixelValues := fun _ p _ => [("Values", [("x", toString p.xp), ("y", toString p.yp)])]

end playlistItemOverlay

/-! ## Drawing an overlay -/

/-- Qt `operator*(const QPoint &, int)`: both coordinates are multiplied. -/
def QPoint.mul (p : QPoint) (k : Int) : QPoint := ⟨p.xp * k, p.yp * k⟩

/-- Modelled from the spec: `centerRoundTL` is declared in `typedef.h`, which is
not among the sources at hand.  The spec calls the point "the center" of the
rectangle; as the name says it is rounded towards the top left, the floor of
half the sum of opposite edges. -/
def centerRoundTL (r : QRect) : QPoint := ⟨(r.x1 + r.x2) / 2, (r.y1 + r.y2) / 2⟩

/-- Qt `qRound(double d)` at the exact quotient `d = n / den`, `den > 0`:
`int(d + 0.5)` for `d >= 0`, the integer below `d + 0.5`. -/
def qRoundQuot (n den : Int) : Int := (2 * n + den) / (2 * den)

/-- Qt `operator*(const QPoint &p, double factor)`, which is
`QPoint(qRound(p.x()*factor), qRound(p.y()*factor))`, for a factor that is the
quotient `num / den` of two integers with `den > 0` and products that a
`double` holds exactly, such as the zoom factors 2, 1 and 0.5. -/
def QPoint.scaleBy (num den : Int) (p : QPoint) : QPoint :=
  ⟨qRoundQuot (p.xp * num) den, qRoundQuot (p.yp * num) den⟩

namespace playlistItemOverlay

variable {σ : Type}

/-- A drawing call recorded with the translation of the painter at the time of
the call: `playlistItem::drawItem` (the info text of the base class) or
`child(i)->drawItem`. -/
inductive DrawEvent where
  | infoText (translation : QPoint)
  | child (i : Nat) (translation : QPoint)
  deriving DecidableEq, Repr

/-- The first statement of `playlistItemOverlay::drawItem`:
`if (childLlistUpdateRequired) updateChildList();`.  The flag and the function
are members of the container base class and are parameters here. -/
def refreshChildList (updateChildList : playlistItemOverlay σ → playlistItemOverlay σ)
    (childLlistUpdateRequired : Bool) (s : playlistItemOverlay σ) : playlistItemOverlay σ :=
  if childLlistUpdateRequired then updateChildList s else s

/-- The loop of `playlistItemOverlay::drawItem` over the children from index
`i` on.  The painter is its accumulated translation: `painter->translate(p)`
adds `p`.  `centerRoundTL` (declared in `typedef.h`) and the product
`center * zoomFactor` of a point and the floating point zoom factor, `scale`,
are parameters; `p * -1` is the integer product.  A child's `drawItem` is
recorded and leaves the translation as it received it.  The result is `none`
when `childItems[i]` is read out of range. -/
def drawLoop (centerRoundTL : QRect → QPoint) (scale : QPoint → QPoint)
    (childItems : List QRect) :
    List σ → Nat → QPoint → List DrawEvent → Option (QPoint × List DrawEvent)
  | [], _, painter, events => some (painter, events)
  | _ :: rest, i, painter, events =>
    match childItems[i]? with
    | none => none
    | some rect =>
      let center := centerRoundTL rect
      let painter1 := painter.add (scale center)
      let events1 := events ++ [DrawEvent.child i painter1]
      let painter2 := painter1.add ((scale center).mul (-1))
      drawLoop centerRoundTL scale childItems rest (i + 1) painter2 events1

/-- The function `playlistItemOverlay::drawItem`: the item after the call, the
translation of the painter on return and the drawing calls made, in order.
The result is `none` when the assertion of `updateLayout` fails or
`childItems[i]` is read out of range. -/
def drawItem (ops : playlistItemClass σ) (centerRoundTL : QRect → QPoint)
    (scale : QPoint → QPoint)
    (updateChildList : playlistItemOverlay σ → playlistItemOverlay σ)
    (childLlistUpdateRequired : Bool) (s : playlistItemOverlay σ) (painter : QPoint) :
    Option (playlistItemOverlay σ × QPoint × List DrawEvent) :=
  let s0 := refreshChildList updateChildList childLlistUpdateRequired s
  let events : List DrawEvent :=
    if s0.childList.isEmpty then [DrawEvent.infoText painter] else []
  match updateLayout ops s0 true with
  | none => none
  | some s1 =>
    let painter1 := painter.add ((scale (centerRoundTL s1.boundingRect)).mul (-1))
    match drawLoop centerRoundTL scale s1.childItems s1.childList 0 painter1 events with
    | none => none
    | some out =>
      let painter2 := out.1.add (scale (centerRoundTL s1.boundingRect))
      some (s1, painter2, out.2)

end playlistItemOverlay

/-! ## Child events of an overlay -/

namespace playlistItemOverlay

variable {σ : Type}

/-- What `playlistItemOverlay::childChanged` does, in order: a layout run
`updateLayout(false)`, or the call `playlistItemContainer::childChanged(redraw)`
that forwards the event. -/
inductive ChildChangedStep where
  | updateLayout
  | forward (redraw : Bool)
  deriving DecidableEq, Repr

/-- The function `playlistItemOverlay::childChanged(bool redraw)`: the item
after the call and the steps taken.  `playlistItemContainer::childChanged` is a
member of the container base class and is a parameter here.  The result is
`none` when the assertion of `updateLayout` fails. -/
def childChanged (ops : playlistItemClass σ)
    (containerChildChanged : playlistItemOverlay σ → Bool → playlistItemOverlay σ)
    (s : playlistItemOverlay σ) (redraw : Bool) :
    Option (playlistItemOverlay σ × List ChildChangedStep) :=
  if redraw then
    match updateLayout ops s false with
    | none => none
    | some s1 =>
      some (containerChildChanged s1 redraw,
        [ChildChangedStep.updateLayout, ChildChangedStep.forward redraw])
  else
    some (containerChildChanged s redraw, [ChildChangedStep.forward redraw])

end playlistItemOverlay

/-! ## Saving and loading an overlay -/

/-- The decimal digit character of a digit `d < 10`. -/
def digitChar (d : Nat) : Char := Char.ofNat (48 + d)

/-- The value of a decimal digit character, `none` for any other character. -/
def charDigit (c : Char) : Option Nat :=
  if 48 ≤ c.toNat ∧ c.toNat ≤ 57 then some (c.toNat - 48) else none

/-- The decimal digits of a natural number, most significant first; `0` is the
single digit "0". -/
def natChars (n : Nat) : List Char :=
  if n = 0 then ['0'] else (Nat.digits 10 n).reverse.map digitChar

/-- The value of a non-empty string of decimal digits, `none` for the empty
string and for a string with another character. -/
def digitsValue (cs : List Char) : Option Nat :=
  match cs with
  | [] => none
  | c :: rest =>
    (c :: rest).foldl
      (fun acc ch =>
        match acc, charDigit ch with
        | some a, some d => some (a * 10 + d)
        | _, _ => none)
      (some 0)

/-- Qt `QString::number(int)`: the decimal text of the number, with a leading
minus sign when it is negative. -/
def QString.number (n : Int) : String :=
  String.mk (if n < 0 then '-' :: natChars n.natAbs else natChars n.natAbs)

/-- Qt `QString::toInt()` on a text made of an optional minus sign and decimal
digits: the number when it fits a 32-bit `int`, and `0` when the conversion
fails (any other text, or a value out of range).  Surrounding white space and a
leading plus sign, which Qt also accepts, are not produced by
`QString::number` and are treated as a failure here. -/
def QString.toInt (s : String) : Int :=
  match s.data with
  | '-' :: ds =>
    match digitsValue ds with
    | some v => if v ≤ 2147483648 then -(v : Int) else 0
    | none => 0
  | ds =>
    match digitsValue ds with
    | some v => if v ≤ 2147483647 then (v : Int) else 0
    | none => 0

/-- Modelled from the spec: the XML element class `QDomElementYUView` is
declared in `typedef.h`, which is not among the sources at hand.  An element is
the list of its property children, each a tag name with its text, in document
order. -/
abbrev QDomElementYUView := List (String × String)

/-- Modelled from the spec: `QDomElementYUView::appendProperiteChild(type, name)`
appends a child element with tag `type` and text `name`. -/
def QDomElementYUView.appendProperiteChild (d : QDomElementYUView) (type name : String) :
    QDomElementYUView :=
  d ++ [(type, name)]

/-- Modelled from the spec: `QDomElementYUView::findChildValue(tagName)` is the
text of the first child element with the given tag name, the empty string when
there is none. -/
def QDomElementYUView.findChildValue (d : QDomElementYUView) (tagName : String) : String :=
  match d.find? (fun p => p.1 == tagName) with
  | some p => p.2
  | none => ""

namespace playlistItemOverlay

variable {σ : Type}

/-- The function `playlistItemOverlay::savePlaylist`: the element
`playlistItemOverlay` appended to the root.  `baseProperties` are the children
that `playlistItem::appendPropertiesToPlaylist` appends first and
`childElements` those that `playlistItemContainer::savePlaylistChildren`
appends last; both functions belong to base classes and are parameters. -/
def savePlaylist (baseProperties childElements : QDomElementYUView)
    (s : playlistItemOverlay σ) : QDomElementYUView :=
  let d : QDomElementYUView := baseProperties
  let d := d.appendProperiteChild "alignmentMode" (QString.number s.alignmentMode)
  let d := d.appendProperiteChild "manualAlignmentX" (QString.number s.manualAlignment.xp)
  let d := d.appendProperiteChild "manualAlignmentY" (QString.number s.manualAlignment.yp)
  d ++ childElements

/-- The function `playlistItemOverlay::newPlaylistItemOverlay`: a newly
constructed overlay whose `alignmentMode` and `manualAlignment` are read from
the element.  `playlistItem::loadPropertiesFromPlaylist` sets identifiers of
the base class only. -/
def newPlaylistItemOverlay (uiAlignmentMode : Int) (root : QDomElementYUView) :
    playlistItemOverlay σ :=
  let newOverlay : playlistItemOverlay σ := construct uiAlignmentMode
  let alignment := QString.toInt (root.findChildValue "alignmentMode")
  let manualAlignmentX := QString.toInt (root.findChildValue "manualAlignmentX")
  let manualAlignmentY := QString.toInt (root.findChildValue "manualAlignmentY")
  { newOverlay with
    alignmentMode := alignment
    manualAlignment := ⟨manualAlignmentX, manualAlignmentY⟩ }

end playlistItemOverlay

/-! ## Identifiers of a playlist item -/

/-- The identifier members of `playlistItem` (`playlistItem.h`): `id` and
`playlistID`, both `unsigned int`, as natural numbers below `2^32`. -/
structure playlistItem where
  id : Nat
  playlistID : Nat
  deriving DecidableEq, Repr

namespace playlistItem

/-- The member `unsigned int getID() const { return id; }`. -/
def getID (s : playlistItem) : Nat := s.id

/-- The member `unsigned int getPlaylistID() const { return playlistID; }`. -/
def getPlaylistID (s : playlistItem) : Nat := s.playlistID

/-- The member `void resetPlaylistID() { playlistID = -1; }`: the `int` value
`-1` is converted to `unsigned int`, that is reduced modulo `2^32`. -/
def resetPlaylistID (s : playlistItem) : playlistItem :=
  { s with playlistID := ((-1 : Int) % 2 ^ 32).toNat }

end playlistItem

/-! ## `needsLoading` as a call that may change the children -/

namespace playlistItemOverlay

variable {σ : Type}

/-- One of the two loops of `playlistItemOverlay::needsLoading`, for a child
member function `needsLoading` that is not `const`: `call child frameIdx raw`
is the value returned together with the child after the call.  The result tells
whether the loop returned, with the children after the loop. -/
def needsLoadingScan (call : σ → Int → Bool → itemLoadingState × σ) (frameIdx : Int)
    (loadRawdata : Bool) (st : itemLoadingState) : List σ → Bool × List σ
  | [] => (false, [])
  | child :: rest =>
    let out := call child frameIdx loadRawdata
    if out.1 = st then (true, out.2 :: rest)
    else
      let r := needsLoadingScan call frameIdx loadRawdata st rest
      (r.1, out.2 :: r.2)

/-- The function `playlistItemOverlay::needsLoading` for children whose
`needsLoading` may change them: the value returned and the overlay after the
call. -/
def needsLoadingCall (call : σ → Int → Bool → itemLoadingState × σ)
    (s : playlistItemOverlay σ) (frameIdx : Int) (loadRawdata : Bool) :
    itemLoadingState × playlistItemOverlay σ :=
  let first := needsLoadingScan call frameIdx loadRawdata LoadingNeeded s.childList
  if first.1 then (LoadingNeeded, { s with childList := first.2 })
  else
    let second :=
      needsLoadingScan call frameIdx loadRawdata LoadingNeededDoubleBuffer first.2
    if second.1 then (LoadingNeededDoubleBuffer, { s with childList := second.2 })
    else (LoadingNotNeeded, { s with childList := second.2 })

end playlistItemOverlay

/-! ## The matrix of `statisticsparser.h` -/

/-- The class template `matrix<w_elem_type>` of `statisticsparser.h`: the `int`
members `m_columns` and `m_rows` and the `std::vector` member `m_data`. -/
structure matrix (α : Type) where
  m_columns : Int
  m_rows : Int
  m_data : List α

namespace matrix

variable {α : Type}

/-- The conversion of an `int` to the `size_t` argument of the vector
constructor and of `std::vector::resize`: the value modulo `2^64`. -/
def toSize (n : Int) : Nat := (n % 2 ^ 64).toNat

/-- The constructor `matrix(t_Size i_columns = 0, t_Size i_rows = 0)`:
`m_data(i_columns * i_rows)` holds that many value-initialized elements, each
the value `dflt`. -/
def construct (dflt : α) (i_columns i_rows : Int) : matrix α where
  m_columns := i_columns
  m_rows := i_rows
  m_data := List.replicate (toSize (i_columns * i_rows)) dflt

/-- The member `void resize(t_Size i_columns, t_Size i_rows)`:
`m_data.resize(i_rows * i_columns)` keeps the leading elements and appends
value-initialized ones up to the new size. -/
def resize (dflt : α) (m : matrix α) (i_columns i_rows : Int) : matrix α where
  m_data :=
    m.m_data.take (toSize (i_rows * i_columns)) ++
      List.replicate (toSize (i_rows * i_columns) - m.m_data.length) dflt
  m_rows := i_rows
  m_columns := i_columns

/-- The offset into `m_data` of the element `m[i_index][j]`: `operator[]`
returns `&m_data[i_index * m_rows]` and the second subscript adds `j`. -/
def offset (m : matrix α) (i_index j : Int) : Int := i_index * m.m_rows + j

/-- The element `m[i_index][j]`, `none` when the offset lies outside `m_data`. -/
def elem (m : matrix α) (i_index j : Int) : Option α :=
  if 0 ≤ m.offset i_index j then m.m_data[(m.offset i_index j).toNat]? else none

end matrix

/-! ## Theorems -/

section Overlay

variable {σ : Type}

open playlistItemOverlay

theorem needsLoadingLoop_iff (ops : playlistItemClass σ) (frameIdx : Int) (loadRawdata : Bool)
    (st : itemLoadingState) (l : List σ) :
    needsLoadingLoop ops frameIdx loadRawdata st l = true ↔
      ∃ c ∈ l, ops.needsLoading c frameIdx loadRawdata = st := by
  induction l with
  | nil => simp [needsLoadingLoop]
  | cons c rest ih =>
    by_cases h : ops.needsLoading c frameIdx loadRawdata = st
    · simp [needsLoadingLoop, h]
    · simp [needsLoadingLoop, h, ih]

/-- C1: `playlistItemOverlay::needsLoading` returns `LoadingNeeded` iff some
child reports `LoadingNeeded`; it returns `LoadingNeededDoubleBuffer` iff no
child reports `LoadingNeeded` and some child reports
`LoadingNeededDoubleBuffer`; it returns `LoadingNotNeeded` iff neither state is
reported by any child, which is the case for an empty child list. -/
theorem overlay_needsLoading_aggregate (ops : playlistItemClass σ) (s : playlistItemOverlay σ)
    (frameIdx : Int) (loadRawdata : Bool) :
    (needsLoading ops s frameIdx loadRawdata = LoadingNeeded ↔
      ∃ c ∈ s.childList, ops.needsLoading c frameIdx loadRawdata = LoadingNeeded) ∧
    (needsLoading ops s frameIdx loadRawdata = LoadingNeededDoubleBuffer ↔
      (¬ ∃ c ∈ s.childList, ops.needsLoading c frameIdx loadRawdata = LoadingNeeded) ∧
      ∃ c ∈ s.childList, ops.needsLoading c frameIdx loadRawdata = LoadingNeededDoubleBuffer) ∧
    (needsLoading ops s frameIdx loadRawdata = LoadingNotNeeded ↔
      (¬ ∃ c ∈ s.childList, ops.needsLoading c frameIdx loadRawdata = LoadingNeeded) ∧
      ¬ ∃ c ∈ s.childList, ops.needsLoading c frameIdx loadRawdata = LoadingNeededDoubleBuffer) ∧
    needsLoading ops { s with childList := [] } frameIdx loadRawdata = LoadingNotNeeded := by
  have h1 := needsLoadingLoop_iff ops frameIdx loadRawdata LoadingNeeded s.childList
  have h2 := needsLoadingLoop_iff ops frameIdx loadRawdata LoadingNeededDoubleBuffer s.childList
  refine ⟨?_, ?_, ?_, ?_⟩
  · rw [← h1]; unfold needsLoading
    by_cases a : needsLoadingLoop ops frameIdx loadRawdata LoadingNeeded s.childList = true
    · simp [a]
    · by_cases b : needsLoadingLoop ops frameIdx loadRawdata LoadingNeededDoubleBuffer
          s.childList = true <;> simp [a, b]
  · rw [← h1, ← h2]; unfold needsLoading
    by_cases a : needsLoadingLoop ops frameIdx loadRawdata LoadingNeeded s.childList = true
    · simp [a]
    · by_cases b : needsLoadingLoop ops frameIdx loadRawdata LoadingNeededDoubleBuffer
          s.childList = true <;> simp [a, b]
  · rw [← h1, ← h2]; unfold needsLoading
    by_cases a : needsLoadingLoop ops frameIdx loadRawdata LoadingNeeded s.childList = true
    · simp [a]
    · by_cases b : needsLoadingLoop ops frameIdx loadRawdata LoadingNeededDoubleBuffer
          s.childList = true <;> simp [a, b]
  · simp [needsLoading, needsLoadingLoop]

theorem loadFrameLoop_calls (ops : playlistItemClass σ) (frameIdx : Int)
    (playing loadRawdata : Bool) (l : List σ) (k : Nat) :
    (loadFrameLoop ops frameIdx playing loadRawdata l k).2 =
      ((l.enumFrom k).filter
        (fun p => decide (ops.needsLoading p.2 frameIdx loadRawdata ≠ LoadingNotNeeded))).map
        (fun p => (⟨p.1, frameIdx, playing, loadRawdata⟩ : LoadCall)) := by
  induction l generalizing k with
  | nil => simp [loadFrameLoop]
  | cons c rest ih =>
    by_cases h : ops.needsLoading c frameIdx loadRawdata = LoadingNotNeeded
    · simp [loadFrameLoop, List.enumFrom, h, ih]
    · simp [loadFrameLoop, List.enumFrom, h, ih]

theorem loadFrameLoop_children (ops : playlistItemClass σ) (frameIdx : Int)
    (playing loadRawdata : Bool) (l : List σ) (k : Nat) :
    (loadFrameLoop ops frameIdx playing loadRawdata l k).1 =
      l.map (fun c =>
        if ops.needsLoading c frameIdx loadRawdata ≠ LoadingNotNeeded then
          ops.loadFrame c frameIdx playing loadRawdata
        else c) := by
  induction l generalizing k with
  | nil => simp [loadFrameLoop]
  | cons c rest ih =>
    by_cases h : ops.needsLoading c frameIdx loadRawdata = LoadingNotNeeded
    · simp [loadFrameLoop, h, ih]
    · simp [loadFrameLoop, h, ih]

/-- C2: `playlistItemOverlay::loadFrame(frameIdx, playing, loadRawdata)` calls
`loadFrame` with the same three arguments on exactly the children whose
`needsLoading(frameIdx, loadRawdata)` is not `LoadingNotNeeded`, once each and
in child-list order: the recorded calls are the enumerated child list
`(0, child 0), (1, child 1), ...` filtered by that test, and the children after
the call are the old children with `loadFrame` applied to exactly those. -/
theorem overlay_loadFrame_forwards (ops : playlistItemClass σ) (s : playlistItemOverlay σ)
    (frameIdx : Int) (playing loadRawdata : Bool) :
    (loadFrame ops s frameIdx playing loadRawdata).2 =
      (s.childList.enum.filter
        (fun p => decide (ops.needsLoading p.2 frameIdx loadRawdata ≠ LoadingNotNeeded))).map
        (fun p => (⟨p.1, frameIdx, playing, loadRawdata⟩ : LoadCall)) ∧
    (loadFrame ops s frameIdx playing loadRawdata).1.childList =
      s.childList.map (fun c =>
        if ops.needsLoading c frameIdx loadRawdata ≠ LoadingNotNeeded then
          ops.loadFrame c frameIdx playing loadRawdata
        else c) := by
  constructor
  · simp only [loadFrame, List.enum]
    exact loadFrameLoop_calls ops frameIdx playing loadRawdata s.childList 0
  · simp only [loadFrame]
    exact loadFrameLoop_children ops frameIdx playing loadRawdata s.childList 0

/-! ### Layout -/

theorem tdiv_two (a : Int) : Int.tdiv a 2 = if 0 ≤ a then a / 2 else -((-a) / 2) := by
  split
  · exact Int.tdiv_eq_ediv (by assumption) (by decide)
  · rename_i h
    have h0 : 0 ≤ -a := by omega
    rw [← Int.tdiv_eq_ediv h0 (by decide), Int.neg_tdiv]; simp

theorem alignTarget_isSome (mode : Int) (hm : 0 ≤ mode ∧ mode ≤ 8) (fr t : QRect) :
    ∃ r, alignTarget mode fr t = some r := by
  have h : mode = 0 ∨ mode = 1 ∨ mode = 2 ∨ mode = 3 ∨ mode = 4 ∨ mode = 5 ∨ mode = 6 ∨
      mode = 7 ∨ mode = 8 := by omega
  rcases h with h | h | h | h | h | h | h | h | h <;> subst h <;> simp [alignTarget]

theorem placeChild_isSome (ops : playlistItemClass σ) (mode : Int) (hm : 0 ≤ mode ∧ mode ≤ 8)
    (off : QPoint) (fr : QRect) (c : σ) :
    ∃ r, placeChild ops mode off fr c = some r := by
  obtain ⟨r, hr⟩ := alignTarget_isSome mode hm fr
    ((QRect.null.setSize (ops.getSize c)).moveCenter ⟨0, 0⟩)
  exact ⟨r.translate off, by simp [placeChild, hr]⟩

theorem set_length_append (pre : List QRect) (m t : QRect) (ms : List QRect) :
    (pre ++ m :: ms).set pre.length t = pre ++ t :: ms := by
  induction pre with
  | nil => simp
  | cons a as ih => simp [ih]

theorem alignLoop_eq (ops : playlistItemClass σ) (mode : Int)
    (off : QPoint) (fr : QRect) (rest : List σ)
    (hp : ∀ c ∈ rest, ∃ r, placeChild ops mode off fr c = some r) :
    ∀ (pre mid : List QRect) (br : QRect), mid.length = rest.length →
      alignLoop ops mode off fr rest pre.length (pre ++ mid) br =
        some (pre ++ placedRects ops mode off fr rest,
          (placedRects ops mode off fr rest).foldl QRect.united br) := by
  induction rest with
  | nil =>
    intro pre mid br hmid
    have : mid = [] := List.length_eq_zero.mp hmid
    subst this
    simp [alignLoop, placedRects]
  | cons c cs ih =>
    intro pre mid br hmid
    obtain ⟨t, ht⟩ := hp c (List.mem_cons_self _ _)
    have ih := ih (fun q hq => hp q (List.mem_cons_of_mem _ hq))
    cases mid with
    | nil => simp at hmid
    | cons m ms =>
      have hms : ms.length = cs.length := by simpa using hmid
      have hstep := ih (pre ++ [t]) ms (br.united t) hms
      simp only [List.length_append, List.length_singleton, List.append_assoc,
        List.singleton_append] at hstep
      simp only [alignLoop, ht, set_length_append, hstep]
      simp [placedRects, ht]

theorem setSize_moveCenter (b : QRect) (sz : QSize) (p : QPoint) :
    (b.setSize sz).moveCenter p = (QRect.null.setSize sz).moveCenter p := by
  simp only [QRect.setSize, QRect.moveCenter, QRect.null]
  have hx : sz.wd + b.x1 - 1 - b.x1 = sz.wd + 0 - 1 - 0 := by omega
  have hy : sz.ht + b.y1 - 1 - b.y1 = sz.ht + 0 - 1 - 0 := by omega
  rw [hx, hy]

theorem updateLayout_eq_of_placed (ops : playlistItemClass σ) (s : playlistItemOverlay σ)
    (cn : Bool) (first : σ) (rest : List σ) (hcl : s.childList = first :: rest)
    (hp : ∀ c ∈ rest, ∃ r,
      placeChild ops s.uiAlignmentMode s.manualAlignment (firstItemRect ops first) c = some r)
    (hcn : cn = false ∨ s.childItems.length ≠ s.childList.length) :
    updateLayout ops s cn = some { s with
      childItems := firstItemRect ops first ::
        placedRects ops s.uiAlignmentMode s.manualAlignment (firstItemRect ops first) rest
      boundingRect :=
        (placedRects ops s.uiAlignmentMode s.manualAlignment (firstItemRect ops first)
          rest).foldl QRect.united (firstItemRect ops first) } := by
  have hskip : (cn && s.childList.length == s.childItems.length) = false := by
    rcases hcn with h | h
    · simp [h]
    · have : (s.childList.length == s.childItems.length) = false := by
        simp; omega
      simp [this]
  obtain ⟨x, tail, hitems, htail⟩ : ∃ x tail,
      (if s.childItems.length ≠ s.childList.length then
        List.replicate s.childList.length QRect.null else s.childItems) = x :: tail ∧
      tail.length = rest.length := by
    by_cases hne : s.childItems.length ≠ s.childList.length
    · refine ⟨QRect.null, List.replicate rest.length QRect.null, ?_, by simp⟩
      rw [if_pos hne, hcl]
      simp [List.replicate_succ]
    · have heq : s.childItems.length = rest.length + 1 := by
        have := not_not.mp hne
        simpa [hcl] using this
      rw [if_neg hne]
      cases hci : s.childItems with
      | nil => simp [hci] at heq
      | cons x tail => exact ⟨x, tail, rfl, by simpa [hci] using heq⟩
  have hloop := alignLoop_eq ops s.uiAlignmentMode s.manualAlignment (firstItemRect ops first)
    rest hp [firstItemRect ops first] tail (firstItemRect ops first) htail
  unfold updateLayout
  split
  · rename_i hnil; rw [hcl] at hnil; cases hnil
  · rename_i f r hcons
    rw [hcl] at hcons
    injection hcons with hf hr
    subst hf; subst hr
    rw [hskip]
    simp only [Bool.false_eq_true, ↓reduceIte, hitems, List.set_cons_zero, setSize_moveCenter]
    simp only [List.length_singleton, List.singleton_append, zero_add] at hloop
    simp only [firstItemRect] at hloop ⊢
    rw [hloop]

theorem updateLayout_eq (ops : playlistItemClass σ) (s : playlistItemOverlay σ) (cn : Bool)
    (first : σ) (rest : List σ) (hcl : s.childList = first :: rest)
    (hm : 0 ≤ s.uiAlignmentMode ∧ s.uiAlignmentMode ≤ 8)
    (hcn : cn = false ∨ s.childItems.length ≠ s.childList.length) :
    updateLayout ops s cn = some { s with
      childItems := firstItemRect ops first ::
        placedRects ops s.uiAlignmentMode s.manualAlignment (firstItemRect ops first) rest
      boundingRect :=
        (placedRects ops s.uiAlignmentMode s.manualAlignment (firstItemRect ops first)
          rest).foldl QRect.united (firstItemRect ops first) } :=
  updateLayout_eq_of_placed ops s cn first rest hcl
    (fun c _ => placeChild_isSome ops _ hm _ _ c) hcn

theorem placedRects_length (ops : playlistItemClass σ) (mode : Int) (off : QPoint) (fr : QRect)
    (rest : List σ) : (placedRects ops mode off fr rest).length = rest.length := by
  simp [placedRects]

theorem placedRects_topLeft (ops : playlistItemClass σ) (mode : Int) (off : QPoint)
    (hmode : mode = 0) (hoff : off = ⟨0, 0⟩) (fr : QRect) (rest : List σ) :
    ∀ r ∈ placedRects ops mode off fr rest, r.topLeft = fr.topLeft := by
  intro r hr
  subst hmode; subst hoff
  simp only [placedRects, List.mem_map] at hr
  obtain ⟨c, _, rfl⟩ := hr
  simp [placeChild, alignTarget, QRect.moveTopLeft, QRect.moveLeft, QRect.moveTop,
    QRect.translate, QRect.topLeft]

/-- C7: for an overlay with at least two children, alignment mode 0 ("Top
Left") and manual offset (0,0), a layout run of `updateLayout` (forced, or with
a changed child count) succeeds, places one rectangle per child, and the
top-left corner of every non-first child's rectangle `childItems[i]`, `i >= 1`,
equals the top-left corner of `childItems[0]`, whatever the child sizes. -/
theorem overlay_topLeft_alignment (ops : playlistItemClass σ) (s : playlistItemOverlay σ)
    (cn : Bool) (first second : σ) (rest : List σ)
    (hcl : s.childList = first :: second :: rest)
    (hmode : s.uiAlignmentMode = 0) (hoff : s.manualAlignment = ⟨0, 0⟩)
    (hcn : cn = false ∨ s.childItems.length ≠ s.childList.length) :
    ∃ s1 r0, updateLayout ops s cn = some s1 ∧
      s1.childItems.length = s.childList.length ∧
      s1.childItems[0]? = some r0 ∧
      ∀ i, 1 ≤ i → i < s.childList.length →
        ∃ ri, s1.childItems[i]? = some ri ∧ ri.topLeft = r0.topLeft := by
  have heq := updateLayout_eq ops s cn first (second :: rest) hcl (by omega) hcn
  refine ⟨_, firstItemRect ops first, heq, ?_, ?_, ?_⟩
  · simp [placedRects_length, hcl]
  · simp
  · intro i hi1 hin
    obtain ⟨j, rfl⟩ : ∃ j, i = j + 1 := ⟨i - 1, by omega⟩
    have hj : j < (placedRects ops s.uiAlignmentMode s.manualAlignment
        (firstItemRect ops first) (second :: rest)).length := by
      rw [placedRects_length]; simp [hcl] at hin; simpa using hin
    refine ⟨(placedRects ops s.uiAlignmentMode s.manualAlignment
        (firstItemRect ops first) (second :: rest))[j], ?_, ?_⟩
    · simp [List.getElem?_eq_getElem hj]
    · exact placedRects_topLeft ops _ _ hmode hoff (firstItemRect ops first) (second :: rest) _
        (List.getElem_mem hj)

/-- C7 (witness): three children of sizes 10x10, 3x7 and 20x4 laid out "Top
Left" with offset (0,0). -/
theorem overlay_topLeft_alignment_witness :
    ∃ s1 r0, updateLayout playlistItemBase
        (withChildren [(⟨10, 10⟩ : QSize), ⟨3, 7⟩, ⟨20, 4⟩] 0 ⟨0, 0⟩) false = some s1 ∧
      s1.childItems.length =
        (withChildren [(⟨10, 10⟩ : QSize), ⟨3, 7⟩, ⟨20, 4⟩] 0 ⟨0, 0⟩).childList.length ∧
      s1.childItems[0]? = some r0 ∧
      ∀ i, 1 ≤ i →
        i < (withChildren [(⟨10, 10⟩ : QSize), ⟨3, 7⟩, ⟨20, 4⟩] 0 ⟨0, 0⟩).childList.length →
        ∃ ri, s1.childItems[i]? = some ri ∧ ri.topLeft = r0.topLeft :=
  overlay_topLeft_alignment playlistItemBase
    (withChildren [(⟨10, 10⟩ : QSize), ⟨3, 7⟩, ⟨20, 4⟩] 0 ⟨0, 0⟩) false
    ⟨10, 10⟩ ⟨3, 7⟩ [⟨20, 4⟩] rfl rfl rfl (Or.inl rfl)

/-! ### The bounding rectangle -/

theorem alignTarget_size (mode : Int) (fr t a : QRect) (h : alignTarget mode fr t = some a) :
    a.x2 - a.x1 = t.x2 - t.x1 ∧ a.y2 - a.y1 = t.y2 - t.y1 := by
  unfold alignTarget at h
  split_ifs at h <;> cases h <;>
    simp [QRect.moveTopLeft, QRect.moveTopRight, QRect.moveBottomLeft,
      QRect.moveBottomRight, QRect.moveLeft, QRect.moveRight, QRect.moveTop,
      QRect.moveBottom, QRect.topLeft, QRect.topRight, QRect.bottomLeft,
      QRect.bottomRight, QRect.left, QRect.right, QRect.top, QRect.bottom] <;>
    omega

theorem firstItemRect_size (ops : playlistItemClass σ) (c : σ) :
    (firstItemRect ops c).x2 - (firstItemRect ops c).x1 + 1 = (ops.getSize c).wd ∧
    (firstItemRect ops c).y2 - (firstItemRect ops c).y1 + 1 = (ops.getSize c).ht := by
  simp only [firstItemRect, QRect.moveCenter, QRect.setSize, QRect.null]
  omega

theorem placeChild_size (ops : playlistItemClass σ) (mode : Int) (off : QPoint) (fr : QRect)
    (c : σ) (r : QRect) (h : placeChild ops mode off fr c = some r) :
    r.x2 - r.x1 + 1 = (ops.getSize c).wd ∧ r.y2 - r.y1 + 1 = (ops.getSize c).ht := by
  unfold placeChild at h
  simp only at h
  split at h
  · cases h
  · rename_i a ha
    injection h with h
    subst h
    have hs := alignTarget_size mode fr _ a ha
    have hf := firstItemRect_size ops c
    simp only [firstItemRect] at hf
    simp only [QRect.translate]
    omega

theorem united_of_normal (a r : QRect) (ha : a.x1 ≤ a.x2 + 1 ∧ a.y1 ≤ a.y2 + 1)
    (hr : r.x1 ≤ r.x2 + 1 ∧ r.y1 ≤ r.y2 + 1) :
    a.united r = if a.isNull then r else if r.isNull then a else a.enclose r := by
  unfold QRect.united QRect.enclose
  have h1 : ¬ (a.x2 - a.x1 + 1 < 0) := by omega
  have h2 : ¬ (a.y2 - a.y1 + 1 < 0) := by omega
  have h3 : ¬ (r.x2 - r.x1 + 1 < 0) := by omega
  have h4 : ¬ (r.y2 - r.y1 + 1 < 0) := by omega
  simp only [h1, h2, h3, h4, if_false]

theorem isNull_eq_false_iff (r : QRect) :
    r.isNull = false ↔ ¬ (r.x2 = r.x1 - 1 ∧ r.y2 = r.y1 - 1) := by
  simp [QRect.isNull]

theorem isNull_iff (r : QRect) : r.isNull = true ↔ (r.x2 = r.x1 - 1 ∧ r.y2 = r.y1 - 1) := by
  simp [QRect.isNull]

theorem enclose_normal (a r : QRect) (ha : a.x1 ≤ a.x2 + 1 ∧ a.y1 ≤ a.y2 + 1)
    (hn : a.isNull = false) :
    ((a.enclose r).x1 ≤ (a.enclose r).x2 + 1 ∧ (a.enclose r).y1 ≤ (a.enclose r).y2 + 1) ∧
    (a.enclose r).isNull = false := by
  rw [isNull_eq_false_iff] at hn ⊢
  simp only [QRect.enclose]
  omega

theorem foldl_united_nonNull (rs : List QRect) :
    ∀ acc : QRect, acc.isNull = false → (acc.x1 ≤ acc.x2 + 1 ∧ acc.y1 ≤ acc.y2 + 1) →
      (∀ r ∈ rs, r.x1 ≤ r.x2 + 1 ∧ r.y1 ≤ r.y2 + 1) →
      rs.foldl QRect.united acc = (rs.filter (fun r => !r.isNull)).foldl QRect.enclose acc := by
  induction rs with
  | nil => intro acc _ _ _; simp
  | cons r rs ih =>
    intro acc hn ha hall
    have hr := hall r (List.mem_cons_self r rs)
    have hrest : ∀ q ∈ rs, q.x1 ≤ q.x2 + 1 ∧ q.y1 ≤ q.y2 + 1 :=
      fun q hq => hall q (List.mem_cons_of_mem r hq)
    rw [List.foldl_cons, united_of_normal acc r ha hr]
    by_cases hrn : r.isNull = true
    · simp only [hn, hrn, Bool.false_eq_true, if_false, if_true, Bool.not_true,
        List.filter_cons_of_neg, not_false_eq_true]
      exact ih acc hn ha hrest
    · have hrn2 : r.isNull = false := by simpa using hrn
      have hen := enclose_normal acc r ha hn
      simp only [hn, hrn2, Bool.false_eq_true, if_false, Bool.not_false,
        List.filter_cons_of_pos, List.foldl_cons]
      exact ih (acc.enclose r) hen.2 hen.1 hrest

theorem foldl_united_eq_enclosingRect (rs : List QRect) :
    ∀ acc : QRect, (∀ r ∈ acc :: rs, r.x1 ≤ r.x2 + 1 ∧ r.y1 ≤ r.y2 + 1) →
      (acc :: rs).filter (fun r => !r.isNull) ≠ [] →
      rs.foldl QRect.united acc = enclosingRect ((acc :: rs).filter (fun r => !r.isNull)) := by
  induction rs with
  | nil =>
    intro acc _ hne
    by_cases hn : acc.isNull = true
    · simp [hn] at hne
    · have hn2 : acc.isNull = false := by simpa using hn
      simp [hn2, enclosingRect]
  | cons r rs ih =>
    intro acc hall hne
    have ha := hall acc (List.mem_cons_self _ _)
    have hrest : ∀ q ∈ r :: rs, q.x1 ≤ q.x2 + 1 ∧ q.y1 ≤ q.y2 + 1 :=
      fun q hq => hall q (List.mem_cons_of_mem _ hq)
    by_cases hn : acc.isNull = true
    · have hfil : (acc :: r :: rs).filter (fun r => !r.isNull) =
          (r :: rs).filter (fun r => !r.isNull) := by
        rw [List.filter_cons_of_neg]; simp [hn]
      rw [hfil] at hne ⊢
      have hu : acc.united r = r := by simp [QRect.united, hn]
      rw [List.foldl_cons, hu]
      exact ih r hrest hne
    · have hn2 : acc.isNull = false := by simpa using hn
      have hfil : (acc :: r :: rs).filter (fun r => !r.isNull) =
          acc :: (r :: rs).filter (fun r => !r.isNull) := by
        rw [List.filter_cons_of_pos]; simp [hn2]
      rw [hfil, foldl_united_nonNull (r :: rs) acc hn2 ha hrest]
      rfl

theorem placedRects_mem (ops : playlistItemClass σ) (mode : Int) (hm : 0 ≤ mode ∧ mode ≤ 8)
    (off : QPoint) (fr : QRect) (rest : List σ) (r : QRect)
    (hr : r ∈ placedRects ops mode off fr rest) :
    ∃ c ∈ rest, placeChild ops mode off fr c = some r := by
  simp only [placedRects, List.mem_map] at hr
  obtain ⟨c, hc, rfl⟩ := hr
  obtain ⟨t, ht⟩ := placeChild_isSome ops mode hm off fr c
  exact ⟨c, hc, by simp [ht]⟩

theorem layout_rect_size (ops : playlistItemClass σ) (mode : Int) (hm : 0 ≤ mode ∧ mode ≤ 8)
    (off : QPoint) (first : σ) (rest : List σ) (r : QRect)
    (hr : r ∈ firstItemRect ops first ::
      placedRects ops mode off (firstItemRect ops first) rest) :
    ∃ c ∈ first :: rest,
      r.x2 - r.x1 + 1 = (ops.getSize c).wd ∧ r.y2 - r.y1 + 1 = (ops.getSize c).ht := by
  rcases List.mem_cons.mp hr with h | h
  · subst h
    exact ⟨first, List.mem_cons_self _ _, firstItemRect_size ops first⟩
  · obtain ⟨c, hc, hp⟩ := placedRects_mem ops mode hm off _ rest r h
    exact ⟨c, List.mem_cons_of_mem _ hc, placeChild_size ops mode off _ c r hp⟩

/-- C8 (as amended): for a non-empty overlay whose children have non-negative
sizes, every alignment mode 0..8 and every manual offset, a forced layout
`updateLayout(false)` succeeds, places one rectangle per child, and leaves
`boundingRect` equal to the smallest enclosing rectangle of the placed
rectangles that are not null (0x0), provided there is one; in particular, when
no child has size 0x0, `boundingRect` is the smallest enclosing rectangle of
all placed rectangles `childItems[0..n-1]`. -/
theorem overlay_boundingRect_enclosing (ops : playlistItemClass σ) (s : playlistItemOverlay σ)
    (first : σ) (rest : List σ) (hcl : s.childList = first :: rest)
    (hm : 0 ≤ s.uiAlignmentMode ∧ s.uiAlignmentMode ≤ 8)
    (hsz : ∀ c ∈ s.childList, 0 ≤ (ops.getSize c).wd ∧ 0 ≤ (ops.getSize c).ht) :
    ∃ s1, updateLayout ops s false = some s1 ∧
      s1.childItems.length = s.childList.length ∧
      (s1.childItems.filter (fun r => !r.isNull) ≠ [] →
        s1.boundingRect = enclosingRect (s1.childItems.filter (fun r => !r.isNull))) ∧
      ((∀ c ∈ s.childList, ¬ ((ops.getSize c).wd = 0 ∧ (ops.getSize c).ht = 0)) →
        s1.boundingRect = enclosingRect s1.childItems) := by
  have heq := updateLayout_eq ops s false first rest hcl hm (Or.inl rfl)
  have hnorm : ∀ r ∈ firstItemRect ops first ::
      placedRects ops s.uiAlignmentMode s.manualAlignment (firstItemRect ops first) rest,
      r.x1 ≤ r.x2 + 1 ∧ r.y1 ≤ r.y2 + 1 := by
    intro r hr
    obtain ⟨c, hc, hw, hh⟩ := layout_rect_size ops _ hm _ first rest r hr
    have := hsz c (by rw [hcl]; exact hc)
    omega
  have hmain := foldl_united_eq_enclosingRect
    (placedRects ops s.uiAlignmentMode s.manualAlignment (firstItemRect ops first) rest)
    (firstItemRect ops first) hnorm
  refine ⟨_, heq, ?_, ?_, ?_⟩
  · simp [placedRects_length, hcl]
  · intro hne
    exact hmain hne
  · intro hnz
    have hall : ∀ r ∈ firstItemRect ops first ::
        placedRects ops s.uiAlignmentMode s.manualAlignment (firstItemRect ops first) rest,
        (!r.isNull) = true := by
      intro r hr
      obtain ⟨c, hc, hw, hh⟩ := layout_rect_size ops _ hm _ first rest r hr
      have h0 := hnz c (by rw [hcl]; exact hc)
      have hn : r.isNull = false := by
        rw [isNull_eq_false_iff]
        omega
      simp [hn]
    have hfil := List.filter_eq_self.mpr hall
    have h := hmain (by rw [hfil]; simp)
    rw [hfil] at h
    exact h

/-- C8 (witness): three children of sizes 10x10, 0x0 and 0x100, alignment mode
"Center", offset (100,100). -/
theorem overlay_boundingRect_enclosing_witness :
    ∃ s1, updateLayout playlistItemBase
        (withChildren [(⟨10, 10⟩ : QSize), ⟨0, 0⟩, ⟨0, 100⟩] 4 ⟨100, 100⟩) false = some s1 ∧
      s1.childItems.length =
        (withChildren [(⟨10, 10⟩ : QSize), ⟨0, 0⟩, ⟨0, 100⟩] 4 ⟨100, 100⟩).childList.length ∧
      (s1.childItems.filter (fun r => !r.isNull) ≠ [] →
        s1.boundingRect = enclosingRect (s1.childItems.filter (fun r => !r.isNull))) ∧
      ((∀ c ∈ (withChildren [(⟨10, 10⟩ : QSize), ⟨0, 0⟩, ⟨0, 100⟩] 4 ⟨100, 100⟩).childList,
          ¬ ((playlistItemBase.getSize c).wd = 0 ∧ (playlistItemBase.getSize c).ht = 0)) →
        s1.boundingRect = enclosingRect s1.childItems) :=
  overlay_boundingRect_enclosing playlistItemBase
    (withChildren [(⟨10, 10⟩ : QSize), ⟨0, 0⟩, ⟨0, 100⟩] 4 ⟨100, 100⟩)
    ⟨10, 10⟩ [⟨0, 0⟩, ⟨0, 100⟩] rfl (by decide) (by decide)

/-- C8 (counterexample): with children of sizes 10x10 and 0x0, mode "Center"
and offset (100,100), the 0x0 child is placed at (100,100) but `boundingRect`
stays the first child's rectangle, which is not the smallest rectangle
enclosing both placed rectangles.  With children of sizes 10x10 and 0x100 and
offset (0,0), the second placed rectangle is empty, yet `boundingRect` grows to
`(-4,-49)..(5,50)`, which is not the smallest rectangle enclosing the non-empty
placed rectangles. -/
theorem overlay_boundingRect_not_union :
    ((updateLayout playlistItemBase
        (withChildren [(⟨10, 10⟩ : QSize), ⟨0, 0⟩] 4 ⟨100, 100⟩) false).map
        (fun s1 => (s1.childItems, s1.boundingRect)) =
      some ([⟨-4, -4, 5, 5⟩, ⟨100, 100, 99, 99⟩], ⟨-4, -4, 5, 5⟩) ∧
    (⟨-4, -4, 5, 5⟩ : QRect) ≠ enclosingRect [⟨-4, -4, 5, 5⟩, ⟨100, 100, 99, 99⟩]) ∧
    ((updateLayout playlistItemBase
        (withChildren [(⟨10, 10⟩ : QSize), ⟨0, 100⟩] 4 ⟨0, 0⟩) false).map
        (fun s1 => (s1.childItems, s1.boundingRect)) =
      some ([⟨-4, -4, 5, 5⟩, ⟨0, -49, -1, 50⟩], ⟨-4, -49, 5, 50⟩) ∧
    (⟨-4, -49, 5, 50⟩ : QRect) ≠
      enclosingRect ([(⟨-4, -4, 5, 5⟩ : QRect), ⟨0, -49, -1, 50⟩].filter
        (fun r => !r.isEmpty))) := by
  decide

/-! ### Center alignment -/

theorem firstItemRect_center (ops : playlistItemClass σ) (c : σ) :
    (firstItemRect ops c).center = ⟨0, 0⟩ := by
  simp only [firstItemRect, QRect.center, QRect.moveCenter, QRect.setSize, QRect.null,
    tdiv_two, QPoint.mk.injEq]
  constructor <;> split_ifs <;> omega

theorem placeChild_center (ops : playlistItemClass σ) (off : QPoint) (fr : QRect) (c : σ)
    (hsz : 1 ≤ (ops.getSize c).wd ∧ 1 ≤ (ops.getSize c).ht) :
    ∃ r, placeChild ops 4 off fr c = some r ∧
      (r.x1 + r.x2) / 2 = off.xp ∧ (r.y1 + r.y2) / 2 = off.yp ∧
      r.center.xp = (if 0 ≤ off.xp ∨ (ops.getSize c).wd % 2 = 1 then off.xp else off.xp + 1) ∧
      r.center.yp = (if 0 ≤ off.yp ∨ (ops.getSize c).ht % 2 = 1 then off.yp else off.yp + 1) := by
  refine ⟨((QRect.null.setSize (ops.getSize c)).moveCenter ⟨0, 0⟩).translate off,
      by simp [placeChild, alignTarget], ?_, ?_, ?_, ?_⟩ <;>
    simp only [QRect.center, QRect.translate, QRect.moveCenter, QRect.setSize, QRect.null,
      tdiv_two] <;>
    split_ifs <;> omega

theorem firstItemRect_floor_center (ops : playlistItemClass σ) (c : σ)
    (hsz : 1 ≤ (ops.getSize c).wd ∧ 1 ≤ (ops.getSize c).ht) :
    ((firstItemRect ops c).x1 + (firstItemRect ops c).x2) / 2 = 0 ∧
    ((firstItemRect ops c).y1 + (firstItemRect ops c).y2) / 2 = 0 := by
  simp only [firstItemRect, QRect.moveCenter, QRect.setSize, QRect.null, tdiv_two]
  constructor <;> split_ifs <;> omega

/-- C9 (as amended): for an overlay with at least two children, all of positive
width and height, laid out with alignment mode 4 ("Center") and manual offset
(dx,dy): the first rectangle has center (0,0), and for every non-first child
the center rounded towards the top left (floor of the edge sum halved) equals
the first child's plus (dx,dy); the `QRect::center` of the child's rectangle,
which truncates towards zero, equals the first child's center plus the offset
in each coordinate whose offset component is non-negative or whose child size
is odd, and exceeds it by one in a coordinate with a negative offset component
and an even child size. -/
theorem overlay_center_alignment (ops : playlistItemClass σ) (s : playlistItemOverlay σ)
    (cn : Bool) (first second : σ) (rest : List σ)
    (hcl : s.childList = first :: second :: rest)
    (hmode : s.uiAlignmentMode = 4)
    (hcn : cn = false ∨ s.childItems.length ≠ s.childList.length)
    (hsz : ∀ c ∈ s.childList, 1 ≤ (ops.getSize c).wd ∧ 1 ≤ (ops.getSize c).ht) :
    ∃ s1 r0, updateLayout ops s cn = some s1 ∧
      s1.childItems.length = s.childList.length ∧
      s1.childItems[0]? = some r0 ∧ r0.center = ⟨0, 0⟩ ∧
      ∀ i c, 1 ≤ i → s.childList[i]? = some c →
        ∃ ri, s1.childItems[i]? = some ri ∧
          (ri.x1 + ri.x2) / 2 = (r0.x1 + r0.x2) / 2 + s.manualAlignment.xp ∧
          (ri.y1 + ri.y2) / 2 = (r0.y1 + r0.y2) / 2 + s.manualAlignment.yp ∧
          ri.center.xp = r0.center.xp +
            (if 0 ≤ s.manualAlignment.xp ∨ (ops.getSize c).wd % 2 = 1
              then s.manualAlignment.xp else s.manualAlignment.xp + 1) ∧
          ri.center.yp = r0.center.yp +
            (if 0 ≤ s.manualAlignment.yp ∨ (ops.getSize c).ht % 2 = 1
              then s.manualAlignment.yp else s.manualAlignment.yp + 1) := by
  have heq := updateLayout_eq ops s cn first (second :: rest) hcl (by omega) hcn
  have hfirst := hsz first (by rw [hcl]; exact List.mem_cons_self _ _)
  have hfc := firstItemRect_floor_center ops first hfirst
  have hc0 := firstItemRect_center ops first
  refine ⟨_, firstItemRect ops first, heq, ?_, ?_, hc0, ?_⟩
  · simp [placedRects_length, hcl]
  · simp
  · intro i c hi1 hic
    obtain ⟨j, rfl⟩ : ∃ j, i = j + 1 := ⟨i - 1, by omega⟩
    have hjc : (second :: rest)[j]? = some c := by
      rw [hcl] at hic; simpa using hic
    have hmem : c ∈ s.childList := by
      rw [hcl]; exact List.mem_cons_of_mem _ (List.getElem?_mem hjc)
    obtain ⟨r, hr, hfx, hfy, hcx, hcy⟩ :=
      placeChild_center ops s.manualAlignment (firstItemRect ops first) c (hsz c hmem)
    refine ⟨r, ?_, ?_, ?_, ?_, ?_⟩
    · show (firstItemRect ops first :: placedRects ops s.uiAlignmentMode s.manualAlignment
          (firstItemRect ops first) (second :: rest))[j + 1]? = some r
      rw [List.getElem?_cons_succ]
      unfold placedRects
      rw [List.getElem?_map, hjc, hmode]
      simp [hr]
    · rw [hfc.1, hfx]; simp
    · rw [hfc.2, hfy]; simp
    · rw [hc0, hcx]; simp
    · rw [hc0, hcy]; simp

/-- C9 (witness): children of sizes 640x480, 320x240 and 101x51 laid out
"Center" with offset (10,-5). -/
theorem overlay_center_alignment_witness :
    ∃ s1 r0, updateLayout playlistItemBase
        (withChildren [(⟨640, 480⟩ : QSize), ⟨320, 240⟩, ⟨101, 51⟩] 4 ⟨10, -5⟩) false
          = some s1 ∧
      s1.childItems.length = 3 ∧
      s1.childItems[0]? = some r0 ∧ r0.center = ⟨0, 0⟩ ∧
      ∀ i c, 1 ≤ i → [(⟨640, 480⟩ : QSize), ⟨320, 240⟩, ⟨101, 51⟩][i]? = some c →
        ∃ ri, s1.childItems[i]? = some ri ∧
          (ri.x1 + ri.x2) / 2 = (r0.x1 + r0.x2) / 2 + 10 ∧
          (ri.y1 + ri.y2) / 2 = (r0.y1 + r0.y2) / 2 + -5 ∧
          ri.center.xp = r0.center.xp +
            (if (0 : Int) ≤ 10 ∨ c.wd % 2 = 1 then 10 else 10 + 1) ∧
          ri.center.yp = r0.center.yp +
            (if (0 : Int) ≤ -5 ∨ c.ht % 2 = 1 then -5 else -5 + 1) :=
  overlay_center_alignment playlistItemBase
    (withChildren [(⟨640, 480⟩ : QSize), ⟨320, 240⟩, ⟨101, 51⟩] 4 ⟨10, -5⟩) false
    ⟨640, 480⟩ ⟨320, 240⟩ [⟨101, 51⟩] rfl rfl (Or.inl rfl) (by decide)

/-- C9 (counterexample): three children of sizes 640x480, 320x240 and 100x50
laid out "Center" with offset (10,-5): the first rectangle has center (0,0),
but the second and third have center (10,-4), not (10,-5).  Likewise a 0x0
child with offset (10,0) gets center (9,0). -/
theorem overlay_center_not_offset :
    (updateLayout playlistItemBase
        (withChildren [(⟨640, 480⟩ : QSize), ⟨320, 240⟩, ⟨100, 50⟩] 4 ⟨10, -5⟩) false).map
        (fun s1 => s1.childItems.map QRect.center) =
      some [⟨0, 0⟩, ⟨10, -4⟩, ⟨10, -4⟩] ∧
    (updateLayout playlistItemBase
        (withChildren [(⟨10, 10⟩ : QSize), ⟨0, 0⟩] 4 ⟨10, 0⟩) false).map
        (fun s1 => s1.childItems.map QRect.center) =
      some [⟨0, 0⟩, ⟨9, 0⟩] := by
  decide

/-! ### Re-invoking the layout -/

theorem alignTarget_none (mode : Int) (hm : ¬ (0 ≤ mode ∧ mode ≤ 8)) (fr t : QRect) :
    alignTarget mode fr t = none := by
  unfold alignTarget
  split_ifs <;> first | rfl | omega

theorem updateLayout_none (ops : playlistItemClass σ) (s : playlistItemOverlay σ)
    (first c : σ) (cs : List σ) (hcl : s.childList = first :: c :: cs)
    (hm : ¬ (0 ≤ s.uiAlignmentMode ∧ s.uiAlignmentMode ≤ 8)) :
    updateLayout ops s false = none := by
  unfold updateLayout
  split
  · rename_i hnil; rw [hcl] at hnil; cases hnil
  · rename_i f r hcons
    rw [hcl] at hcons
    injection hcons with hf hr
    subst hf; subst hr
    simp [alignLoop, placeChild, alignTarget_none _ hm]

theorem updateLayout_forced_twice (ops : playlistItemClass σ) (s : playlistItemOverlay σ) :
    (updateLayout ops s false).bind (fun s1 => updateLayout ops s1 false) =
      updateLayout ops s false := by
  rcases hcl : s.childList with _ | ⟨first, rest⟩
  · simp [updateLayout, hcl]
  · by_cases hp : ∀ c ∈ rest, ∃ r,
        placeChild ops s.uiAlignmentMode s.manualAlignment (firstItemRect ops first) c = some r
    · rw [updateLayout_eq_of_placed ops s false first rest hcl hp (Or.inl rfl)]
      simp only [Option.some_bind]
      exact updateLayout_eq_of_placed ops _ false first rest hcl hp (Or.inl rfl)
    · have hm : ¬ (0 ≤ s.uiAlignmentMode ∧ s.uiAlignmentMode ≤ 8) :=
        fun hm => hp (fun c _ => placeChild_isSome ops _ hm _ _ c)
      cases rest with
      | nil => simp at hp
      | cons c cs => rw [updateLayout_none ops s first c cs hcl hm]; rfl

/-- C10: for a non-empty overlay, `updateLayout` with the default
`checkNumber = true` on an item whose `childItems` count equals its `childList`
count returns the item unchanged: same `childItems`, same `boundingRect`, and
nothing added to the log of emitted signals.  A forced `updateLayout(false)`
emits no signal either, succeeds for every alignment mode 0..8, and applying it
a second time to its own result, with children, alignment and offset unchanged,
yields that result again. -/
theorem overlay_updateLayout_noop (ops : playlistItemClass σ) (s : playlistItemOverlay σ)
    (hne : s.childList ≠ []) :
    (s.childItems.length = s.childList.length →
      updateLayout ops s true = some s) ∧
    (∀ cn s1, updateLayout ops s cn = some s1 → s1.emitted = s.emitted) ∧
    ((0 ≤ s.uiAlignmentMode ∧ s.uiAlignmentMode ≤ 8) →
      ∃ s1, updateLayout ops s false = some s1 ∧ updateLayout ops s1 false = some s1 ∧
        s1.childList = s.childList ∧ s1.uiAlignmentMode = s.uiAlignmentMode ∧
        s1.manualAlignment = s.manualAlignment) ∧
    (updateLayout ops s false).bind (fun s1 => updateLayout ops s1 false) =
      updateLayout ops s false := by
  obtain ⟨first, rest, hcl⟩ : ∃ first rest, s.childList = first :: rest := by
    cases h : s.childList with
    | nil => exact absurd h hne
    | cons a l => exact ⟨a, l, rfl⟩
  refine ⟨?_, ?_, ?_, updateLayout_forced_twice ops s⟩
  · intro hcount
    unfold updateLayout
    split
    · rename_i hnil; rw [hcl] at hnil; cases hnil
    · simp [hcount]
  · intro cn s1 h
    unfold updateLayout at h
    split at h
    · rename_i hnil; rw [hcl] at hnil; cases hnil
    · split at h
      · cases h; rfl
      · simp only at h
        split at h
        · cases h
        · cases h; rfl
  · intro hm
    have heq := updateLayout_eq ops s false first rest hcl hm (Or.inl rfl)
    have htw := updateLayout_forced_twice ops s
    rw [heq] at htw
    exact ⟨_, heq, by simpa using htw, rfl, rfl, rfl⟩

/-- C10 (witness): three children of sizes 640x480, 320x240 and 100x50 with
alignment "Center" and offset (10,-5): once laid out, a further
`updateLayout()` returns the item unchanged. -/
theorem overlay_updateLayout_noop_witness :
    ((withChildren [(⟨640, 480⟩ : QSize), ⟨320, 240⟩, ⟨100, 50⟩] 4 ⟨10, -5⟩).childList ≠ []) ∧
    ((updateLayout playlistItemBase
        (withChildren [(⟨640, 480⟩ : QSize), ⟨320, 240⟩, ⟨100, 50⟩] 4 ⟨10, -5⟩) false).bind
        (fun s1 => updateLayout playlistItemBase s1 false) =
      updateLayout playlistItemBase
        (withChildren [(⟨640, 480⟩ : QSize), ⟨320, 240⟩, ⟨100, 50⟩] 4 ⟨10, -5⟩) false) :=
  ⟨by decide,
    (overlay_updateLayout_noop playlistItemBase
      (withChildren [(⟨640, 480⟩ : QSize), ⟨320, 240⟩, ⟨100, 50⟩] 4 ⟨10, -5⟩)
      (by decide)).2.2.2⟩

end Overlay

section Difference

variable {σ H : Type}

open playlistItemDifference

/-- C3: `playlistItemDifference::getPixelValues` returns the set labeled
"Item A" iff at least one child is present, followed by the sets labeled
"Item B" and "Diff (A-B)" iff two children are present: no set for no child,
one set for one child, three sets for two children.  "Item A" and "Item B" hold
the values of the first and second child's frame handler and "Diff (A-B)" those
of the difference handler, and the difference handler is queried only when two
children are present. -/
theorem difference_getPixelValues_sets (cops : frameHandlerClass σ)
    (hops : videoHandlerDifferenceClass H) (s : playlistItemDifference σ H)
    (pixelPos : QPoint) (frameIdx : Int) :
    (getPixelValues cops hops s pixelPos frameIdx).1.map Prod.fst =
      (if 1 ≤ s.childList.length then ["Item A"] else []) ++
      (if 2 ≤ s.childList.length then ["Item B", "Diff (A-B)"] else []) ∧
    (getPixelValues cops hops s pixelPos frameIdx).1.length =
      (if s.childList.length = 0 then 0 else if s.childList.length = 1 then 1 else 3) ∧
    (∀ a, s.childList[0]? = some a →
      (getPixelValues cops hops s pixelPos frameIdx).1[0]? =
        some ("Item A", cops.getPixelValues a pixelPos frameIdx)) ∧
    (∀ b, s.childList[1]? = some b →
      (getPixelValues cops hops s pixelPos frameIdx).1[1]? =
        some ("Item B", cops.getPixelValues b pixelPos frameIdx) ∧
      (getPixelValues cops hops s pixelPos frameIdx).1[2]? =
        some ("Diff (A-B)", hops.getPixelValues s.difference pixelPos frameIdx)) ∧
    ((∃ p f, PixelQuery.difference p f ∈ (getPixelValues cops hops s pixelPos frameIdx).2) ↔
      2 ≤ s.childList.length) := by
  rcases hl : s.childList with _ | ⟨a, _ | ⟨b, rest⟩⟩
  · simp [getPixelValues, hl]
  · simp [getPixelValues, hl]
  · simp [getPixelValues, hl]

/-- C4 (as amended): with `state = difference.needsLoading(F, loadRawData)`
evaluated on entry, `playlistItemDifference::loadFrame(F, playing, loadRawData)`
calls `difference.loadFrame(F)` iff `state` is `LoadingNeeded`, and after it
`difference.loadFrame(F+1, true)` iff `playing` holds, `state` is not
`LoadingNotNeeded` and `F+1 <= startEndFrame.second`; it makes no other call.
When `playing` is false no double-buffer load is made, and every double-buffer
load is for a frame not beyond the end of the range. -/
theorem difference_loadFrame_loads (hops : videoHandlerDifferenceClass H)
    (s : playlistItemDifference σ H) (F : Int) (playing loadRawData : Bool) :
    loadFrameLoads hops s F playing loadRawData =
      (if hops.needsLoading s.difference F loadRawData = LoadingNeeded then
        [(⟨F, false⟩ : HandlerLoad)] else []) ++
      (if playing = true ∧ hops.needsLoading s.difference F loadRawData ≠ LoadingNotNeeded ∧
          F + 1 ≤ s.startEndFrame.2 then
        [(⟨F + 1, true⟩ : HandlerLoad)] else []) ∧
    ((⟨F, false⟩ : HandlerLoad) ∈ loadFrameLoads hops s F playing loadRawData ↔
      hops.needsLoading s.difference F loadRawData = LoadingNeeded) ∧
    ((⟨F + 1, true⟩ : HandlerLoad) ∈ loadFrameLoads hops s F playing loadRawData ↔
      playing = true ∧ F + 1 ≤ s.startEndFrame.2 ∧
        hops.needsLoading s.difference F loadRawData ≠ LoadingNotNeeded) ∧
    (playing = false →
      ∀ c ∈ loadFrameLoads hops s F playing loadRawData, c.loadToDoubleBuffer = false) ∧
    (∀ c ∈ loadFrameLoads hops s F playing loadRawData,
      c.loadToDoubleBuffer = true → c.frameIdx ≤ s.startEndFrame.2) := by
  cases hst : hops.needsLoading s.difference F loadRawData <;> cases playing <;>
    by_cases hle : F + 1 ≤ s.startEndFrame.2 <;>
    simp [loadFrameLoads, loadFrame, loadFrameBody, run, exec, hst, hle]

/-- C4 (counterexample): a paused call `loadFrame(5, false, false)` on an item
whose range ends at frame 3 and whose handler reports `LoadingNeeded` loads
frame 5, a frame beyond the end of the range. -/
theorem difference_loadFrame_beyond_range :
    loadFrameLoads (σ := Unit) alwaysNeeded (construct () (0, 3)) 5 false false =
      [⟨5, false⟩] ∧
    ¬ (∀ c ∈ loadFrameLoads (σ := Unit) alwaysNeeded (construct () (0, 3)) 5 false false,
      c.frameIdx ≤ (construct (σ := Unit) () (0, 3)).startEndFrame.2) := by
  decide

/-- C5: one call of `playlistItemDifference::loadFrame` emits
`signalItemChanged(true)` exactly once if it made the synchronous load
`difference.loadFrame(F)` and not at all otherwise, emits
`signalItemDoubleBufferLoaded` exactly once if it made the double-buffer load
`difference.loadFrame(F+1, true)` and not at all otherwise, and emits nothing
else; so a call that makes only the double-buffer load emits only
`signalItemDoubleBufferLoaded`, and a call that loads nothing emits nothing. -/
theorem difference_loadFrame_signals (hops : videoHandlerDifferenceClass H)
    (s : playlistItemDifference σ H) (F : Int) (playing loadRawData : Bool) :
    (loadFrameSignals hops s F playing loadRawData).count (Signal.signalItemChanged true) =
      (if (⟨F, false⟩ : HandlerLoad) ∈ loadFrameLoads hops s F playing loadRawData
        then 1 else 0) ∧
    (loadFrameSignals hops s F playing loadRawData).count Signal.signalItemDoubleBufferLoaded =
      (if (⟨F + 1, true⟩ : HandlerLoad) ∈ loadFrameLoads hops s F playing loadRawData
        then 1 else 0) ∧
    (∀ sig ∈ loadFrameSignals hops s F playing loadRawData,
      sig = Signal.signalItemChanged true ∨ sig = Signal.signalItemDoubleBufferLoaded) ∧
    (loadFrameLoads hops s F playing loadRawData = [⟨F + 1, true⟩] →
      loadFrameSignals hops s F playing loadRawData = [Signal.signalItemDoubleBufferLoaded]) ∧
    (loadFrameLoads hops s F playing loadRawData = [] →
      loadFrameSignals hops s F playing loadRawData = []) := by
  cases hst : hops.needsLoading s.difference F loadRawData <;> cases playing <;>
    by_cases hle : F + 1 ≤ s.startEndFrame.2 <;>
    simp [loadFrameSignals, loadFrameLoads, loadFrame, loadFrameBody, run, exec, hst, hle]

/-- C6: in every execution of `playlistItemDifference::loadFrame` that starts
with both flags false, `isDifferenceLoading` and
`isDifferenceLoadingToDoubleBuffer` are never both true; while
`isDifferenceLoading` is true the only statements executed are the call
`difference.loadFrame(F)` and the reset of the flag, and likewise for
`isDifferenceLoadingToDoubleBuffer` and `difference.loadFrame(F+1, true)`; each
`difference.loadFrame` call runs with its own flag true and the other false;
both flags are false after the constructor and when `loadFrame` returns. -/
theorem difference_loadFrame_flags (hops : videoHandlerDifferenceClass H)
    (s : playlistItemDifference σ H) (F : Int) (playing loadRawData : Bool)
    (d : H) (r : indexRange)
    (h1 : s.isDifferenceLoading = false) (h2 : s.isDifferenceLoadingToDoubleBuffer = false) :
    (∀ p ∈ loadFrameSteps hops s F playing loadRawData,
      ¬ (p.1.isDifferenceLoading = true ∧ p.1.isDifferenceLoadingToDoubleBuffer = true)) ∧
    (∀ p ∈ loadFrameSteps hops s F playing loadRawData, p.1.isDifferenceLoading = true →
      p.2 = Stmt.differenceLoadFrame F false ∨ p.2 = Stmt.setIsDifferenceLoading false) ∧
    (∀ p ∈ loadFrameSteps hops s F playing loadRawData,
      p.1.isDifferenceLoadingToDoubleBuffer = true →
      p.2 = Stmt.differenceLoadFrame (F + 1) true ∨
        p.2 = Stmt.setIsDifferenceLoadingToDoubleBuffer false) ∧
    (∀ p ∈ loadFrameSteps hops s F playing loadRawData, ∀ f,
      p.2 = Stmt.differenceLoadFrame f false →
      p.1.isDifferenceLoading = true ∧ p.1.isDifferenceLoadingToDoubleBuffer = false) ∧
    (∀ p ∈ loadFrameSteps hops s F playing loadRawData, ∀ f,
      p.2 = Stmt.differenceLoadFrame f true →
      p.1.isDifferenceLoadingToDoubleBuffer = true ∧ p.1.isDifferenceLoading = false) ∧
    (loadFrame hops s F playing loadRawData).isDifferenceLoading = false ∧
    (loadFrame hops s F playing loadRawData).isDifferenceLoadingToDoubleBuffer = false ∧
    (construct d r : playlistItemDifference σ H).isDifferenceLoading = false ∧
    (construct d r : playlistItemDifference σ H).isDifferenceLoadingToDoubleBuffer = false := by
  cases hst : hops.needsLoading s.difference F loadRawData <;> cases playing <;>
    by_cases hle : F + 1 ≤ s.startEndFrame.2 <;>
    simp [loadFrameSteps, loadFrame, loadFrameBody, steps, run, exec, construct, hst, hle,
      h1, h2]

/-- C6 (witness): the flag properties for a playing call `loadFrame(2, true, false)`
on a freshly constructed item with range `(0, 3)`, which makes both loads. -/
theorem difference_loadFrame_flags_witness :
    (loadFrameSteps (σ := Unit) alwaysNeeded (construct () (0, 3)) 2 true false).length = 8 ∧
    (∀ p ∈ loadFrameSteps (σ := Unit) alwaysNeeded (construct () (0, 3)) 2 true false,
      ¬ (p.1.isDifferenceLoading = true ∧ p.1.isDifferenceLoadingToDoubleBuffer = true)) :=
  ⟨by decide,
    (difference_loadFrame_flags (σ := Unit) alwaysNeeded (construct () (0, 3)) 2 true false
      () (0, 3) rfl rfl).1⟩

end Difference

section Containers

variable {σ τ Φ H : Type}

theorem updateLayout_startEndFrame (ops : playlistItemClass σ) (t : playlistItemOverlay σ)
    (cn : Bool) (t1 : playlistItemOverlay σ)
    (h : playlistItemOverlay.updateLayout ops t cn = some t1) :
    t1.startEndFrame = t.startEndFrame ∧ t1.childList = t.childList ∧
      t1.emitted = t.emitted := by
  unfold playlistItemOverlay.updateLayout at h
  split at h
  · cases h; exact ⟨rfl, rfl, rfl⟩
  · split at h
    · cases h; exact ⟨rfl, rfl, rfl⟩
    · simp only at h
      split at h
      · cases h
      · cases h; exact ⟨rfl, rfl, rfl⟩

/-- C11 (as amended): for an overlay whose child list is empty, `updateLayout`
(either value of `checkNumber`) succeeds, sets `boundingRect` to the null
(empty) rectangle `QRect()` and clears `childItems`; it does not write
`startEndFrame`, which keeps the value it had, `(-1,-1)` right after the
constructor.  For a difference item without children, `updateChildItems`
passes two absent handlers to `difference.setInputVideos` and sets
`startEndFrame` to the result of `getStartEndFrameLimits()`, which is `(-1,-1)`
for the implementation in `playlistItem.h`. -/
theorem containers_without_children (ops : playlistItemClass σ) (s : playlistItemOverlay σ)
    (cn : Bool) (ui : Int) (iops : differenceInputsClass τ Φ H)
    (limits : playlistItemDifference τ H → indexRange)
    (d : playlistItemDifference τ H)
    (hs : s.childList = []) (hd : d.childList = []) :
    (∃ s1, playlistItemOverlay.updateLayout ops s cn = some s1 ∧
      s1.boundingRect = QRect.null ∧ s1.boundingRect.isEmpty = true ∧
      s1.childItems = [] ∧ s1.startEndFrame = s.startEndFrame) ∧
    (playlistItemOverlay.construct ui : playlistItemOverlay σ).startEndFrame = (-1, -1) ∧
    (∀ t c t1, playlistItemOverlay.updateLayout ops t c = some t1 →
      t1.startEndFrame = t.startEndFrame) ∧
    (playlistItemDifference.updateChildItems iops limits d).2 = (none, none) ∧
    (playlistItemDifference.updateChildItems iops limits d).1.difference =
      iops.setInputVideos d.difference none none ∧
    (playlistItemDifference.updateChildItems iops limits d).1.startEndFrame =
      limits { d with difference := iops.setInputVideos d.difference none none } ∧
    (playlistItemDifference.updateChildItems iops
      playlistItemDifference.baseStartEndFrameLimits d).1.startEndFrame = (-1, -1) := by
  refine ⟨⟨{ s with childItems := [], boundingRect := QRect.null }, ?_, rfl, rfl, rfl,
    rfl⟩, rfl, fun t c t1 h => (updateLayout_startEndFrame ops t c t1 h).1, ?_, ?_, ?_, ?_⟩
  · unfold playlistItemOverlay.updateLayout
    simp [hs]
  · simp [playlistItemDifference.updateChildItems, hd]
  · simp [playlistItemDifference.updateChildItems, hd]
  · simp [playlistItemDifference.updateChildItems, hd]
  · simp [playlistItemDifference.updateChildItems,
      playlistItemDifference.baseStartEndFrameLimits]

/-- C11 (witness): an overlay that was laid out for children 10x10 and 4x4, with frame
range `(0,99)`, after its children were removed; and a difference item whose
two children were removed while its range was `(0,99)`. -/
theorem containers_without_children_witness :
    (∃ s1, playlistItemOverlay.updateLayout playlistItemBase
        { playlistItemOverlay.withChildren ([] : List QSize) 4 ⟨10, -5⟩ with
          childItems := [⟨-4, -4, 5, 5⟩, ⟨9, -6, 12, -3⟩]
          boundingRect := ⟨-4, -6, 12, 5⟩
          startEndFrame := (0, 99) } true = some s1 ∧
      s1.boundingRect = QRect.null ∧ s1.boundingRect.isEmpty = true ∧
      s1.childItems = [] ∧ s1.startEndFrame = (0, 99)) ∧
    (playlistItemDifference.updateChildItems playlistItemDifference.recordInputs
      playlistItemDifference.baseStartEndFrameLimits
      (playlistItemDifference.construct (some 1, some 2) (0, 99))).1.startEndFrame =
        (-1, -1) :=
  have h := containers_without_children playlistItemBase
    { playlistItemOverlay.withChildren ([] : List QSize) 4 ⟨10, -5⟩ with
      childItems := [⟨-4, -4, 5, 5⟩, ⟨9, -6, 12, -3⟩]
      boundingRect := ⟨-4, -6, 12, 5⟩
      startEndFrame := (0, 99) }
    true 0 playlistItemDifference.recordInputs
    (playlistItemDifference.baseStartEndFrameLimits (σ := Nat))
    (playlistItemDifference.construct (some 1, some 2) (0, 99)) rfl rfl
  ⟨h.1, h.2.2.2.2.2.2⟩

/-- C11 (counterexample): an overlay laid out for two children with frame range
`(0,99)` loses its children; `updateLayout`, with either value of
`checkNumber`, clears `childItems` and resets `boundingRect` but leaves the
frame range `(0,99)`, not `(-1,-1)`. -/
theorem overlay_emptied_keeps_range :
    (playlistItemOverlay.updateLayout playlistItemBase
        { playlistItemOverlay.withChildren ([] : List QSize) 4 ⟨10, -5⟩ with
          childItems := [⟨-4, -4, 5, 5⟩, ⟨9, -6, 12, -3⟩]
          boundingRect := ⟨-4, -6, 12, 5⟩
          startEndFrame := (0, 99) } true).map
        (fun s1 => (s1.childItems, s1.boundingRect, s1.startEndFrame)) =
      some ([], QRect.null, (0, 99)) ∧
    (playlistItemOverlay.updateLayout playlistItemBase
        { playlistItemOverlay.withChildren ([] : List QSize) 4 ⟨10, -5⟩ with
          childItems := [⟨-4, -4, 5, 5⟩, ⟨9, -6, 12, -3⟩]
          boundingRect := ⟨-4, -6, 12, 5⟩
          startEndFrame := (0, 99) } false).map
        (fun s1 => (s1.childItems, s1.boundingRect, s1.startEndFrame)) =
      some ([], QRect.null, (0, 99)) ∧
    ((0, 99) : indexRange) ≠ (-1, -1) := by
  decide

end Containers

section OverlayPixelValues

variable {σ : Type}

open playlistItemOverlay

theorem getPixelValuesLoop_eq (ops : playlistItemClass σ) (childItems : List QRect)
    (relPoint : QPoint) (frameIdx : Int) (l : List σ) :
    ∀ (k : Nat) (acc : ValuePairListSets), k + l.length ≤ childItems.length →
      getPixelValuesLoop ops childItems relPoint frameIdx l k acc =
        some (acc ++ contributedSets ops relPoint frameIdx
          ((l.zip (childItems.drop k)).enumFrom k)) := by
  induction l with
  | nil => intro k acc _; simp [getPixelValuesLoop, contributedSets]
  | cons c rest ih =>
    intro k acc hlen
    have hk : k < childItems.length := by simp at hlen; omega
    have hdrop : childItems.drop k = childItems[k] :: childItems.drop (k + 1) :=
      List.drop_eq_getElem_cons hk
    have hrest := ih (k + 1)
    have hlen2 : k + 1 + rest.length ≤ childItems.length := by simp at hlen; omega
    by_cases hc : childItems[k].contains relPoint = true
    · simp only [getPixelValuesLoop, List.getElem?_eq_getElem hk, hc, if_true]
      rw [hrest _ hlen2, hdrop]
      simp [contributedSets, List.enumFrom, hc, List.zip]
    · simp only [getPixelValuesLoop, List.getElem?_eq_getElem hk, hc]
      rw [if_neg (by simp), hrest _ hlen2, hdrop]
      simp [contributedSets, List.enumFrom, hc, List.zip]

/-- C12: for an overlay whose `childItems` holds a rectangle for every child,
`playlistItemOverlay::getPixelValues(p, frameIdx)` returns the concatenation,
in child-list order, over exactly the children `i` whose rectangle
`childItems[i]` contains `q = boundingRect.topLeft() + p`, of child `i`'s
`getPixelValues(q - childItems[i].topLeft(), frameIdx)` with every set name `n`
replaced by "Item i - n"; the other children contribute nothing. -/
theorem overlay_getPixelValues_sets (ops : playlistItemClass σ) (s : playlistItemOverlay σ)
    (p : QPoint) (frameIdx : Int) (hlen : s.childList.length ≤ s.childItems.length) :
    getPixelValues ops s p frameIdx =
      some (((s.childList.zip s.childItems).enum.filter
          (fun e => e.2.2.contains (s.boundingRect.topLeft.add p))).flatMap
        (fun e =>
          (ops.getPixelValues e.2.1 ((s.boundingRect.topLeft.add p).sub e.2.2.topLeft)
            frameIdx).map
            (fun set => ("Item " ++ toString e.1 ++ " - " ++ set.1, set.2)))) := by
  have h := getPixelValuesLoop_eq ops s.childItems (s.boundingRect.topLeft.add p) frameIdx
    s.childList 0 [] (by simpa using hlen)
  simp only [getPixelValues, h]
  simp [contributedSets, renameSets, itemSetName, List.enum]

/-- C12 (witness): two overlapping children of sizes 10x10 and 4x4 laid out
"Top Left", probed at the bounding rectangle's top-left pixel. -/
theorem overlay_getPixelValues_sets_witness :
    getPixelValues probeItem
        { withChildren [(⟨10, 10⟩ : QSize), ⟨4, 4⟩] 0 ⟨0, 0⟩ with
          childItems := [⟨-4, -4, 5, 5⟩, ⟨-4, -4, -1, -1⟩]
          boundingRect := ⟨-4, -4, 5, 5⟩ } ⟨0, 0⟩ 7 =
      some ((([(⟨10, 10⟩ : QSize), ⟨4, 4⟩].zip
            [(⟨-4, -4, 5, 5⟩ : QRect), ⟨-4, -4, -1, -1⟩]).enum.filter
          (fun e => e.2.2.contains ((⟨-4, -4⟩ : QPoint).add ⟨0, 0⟩))).flatMap
        (fun e =>
          (probeItem.getPixelValues e.2.1
            (((⟨-4, -4⟩ : QPoint).add ⟨0, 0⟩).sub e.2.2.topLeft) 7).map
            (fun set => ("Item " ++ toString e.1 ++ " - " ++ set.1, set.2)))) :=
  overlay_getPixelValues_sets probeItem
    { withChildren [(⟨10, 10⟩ : QSize), ⟨4, 4⟩] 0 ⟨0, 0⟩ with
      childItems := [⟨-4, -4, 5, 5⟩, ⟨-4, -4, -1, -1⟩]
      boundingRect := ⟨-4, -4, 5, 5⟩ } ⟨0, 0⟩ 7 (by decide)

end OverlayPixelValues

section OverlayInvariant

variable {σ : Type}

open playlistItemOverlay

theorem alignLoop_length (ops : playlistItemClass σ) (mode : Int) (off : QPoint) (fr : QRect)
    (l : List σ) :
    ∀ (i : Nat) (items : List QRect) (br : QRect) (out : List QRect × QRect),
      alignLoop ops mode off fr l i items br = some out → out.1.length = items.length := by
  induction l with
  | nil => intro i items br out h; simp [alignLoop] at h; subst h; rfl
  | cons c rest ih =>
    intro i items br out h
    unfold alignLoop at h
    split at h
    · cases h
    · have := ih _ _ _ _ h
      simpa using this

theorem updateLayout_length (ops : playlistItemClass σ) (s : playlistItemOverlay σ) (cn : Bool)
    (s1 : playlistItemOverlay σ) (h : updateLayout ops s cn = some s1) :
    s1.childItems.length = s1.childList.length := by
  unfold updateLayout at h
  split at h
  · rename_i hnil
    cases h; simp [hnil]
  · rename_i first rest hcons
    split at h
    · rename_i hskip
      cases h
      simp only [Bool.and_eq_true, beq_iff_eq] at hskip
      exact hskip.2.symm
    · simp only at h
      split at h
      · cases h
      · rename_i out hout
        cases h
        have hl := alignLoop_length ops _ _ _ _ _ _ _ _ hout
        simp only [hl, List.length_set]
        split
        · simp
        · rename_i hne
          exact not_not.mp hne

theorem updateLayout_total (ops : playlistItemClass σ) (s : playlistItemOverlay σ) (cn : Bool)
    (hm : 0 ≤ s.uiAlignmentMode ∧ s.uiAlignmentMode ≤ 8) :
    ∃ s1, updateLayout ops s cn = some s1 := by
  rcases hcl : s.childList with _ | ⟨first, rest⟩
  · exact ⟨{ s with childItems := [], boundingRect := QRect.null },
      by unfold updateLayout; simp [hcl]⟩
  · by_cases hskip : cn = true ∧ s.childList.length = s.childItems.length
    · refine ⟨s, ?_⟩
      unfold updateLayout
      split
      · rename_i hnil; rw [hcl] at hnil; cases hnil
      · simp [hskip.1, hskip.2]
    · refine ⟨_, updateLayout_eq ops s cn first rest hcl hm ?_⟩
      by_cases hc : cn = true
      · right; intro h; exact hskip ⟨hc, h.symm⟩
      · left; simpa using hc

end OverlayInvariant

section OverlayDraw

variable {σ : Type}

open playlistItemOverlay

theorem QPoint.add_mul_neg (p x : QPoint) : (p.add x).add (x.mul (-1)) = p := by
  cases p; cases x
  simp only [QPoint.add, QPoint.mul, QPoint.mk.injEq]
  constructor <;> omega

theorem QPoint.mul_neg_add (p x : QPoint) : (p.add (x.mul (-1))).add x = p := by
  cases p; cases x
  simp only [QPoint.add, QPoint.mul, QPoint.mk.injEq]
  constructor <;> omega

theorem QPoint.add_neg_add (p b x : QPoint) :
    (p.add (b.mul (-1))).add x = (p.add x).sub b := by
  cases p; cases b; cases x
  simp only [QPoint.add, QPoint.mul, QPoint.sub, QPoint.mk.injEq]
  constructor <;> omega

theorem QPoint.add_sub_assoc (p x b : QPoint) : (p.add x).sub b = p.add (x.sub b) := by
  cases p; cases b; cases x
  simp only [QPoint.add, QPoint.sub, QPoint.mk.injEq]
  constructor <;> omega

theorem drawLoop_eq (center : QRect → QPoint) (scale : QPoint → QPoint)
    (childItems : List QRect) (l : List σ) :
    ∀ (k : Nat) (p : QPoint) (ev : List DrawEvent), k + l.length ≤ childItems.length →
      drawLoop center scale childItems l k p ev =
        some (p, ev ++ (((childItems.drop k).take l.length).enumFrom k).map
          (fun e => DrawEvent.child e.1 (p.add (scale (center e.2))))) := by
  induction l with
  | nil => intro k p ev _; simp [drawLoop]
  | cons c rest ih =>
    intro k p ev hlen
    have hk : k < childItems.length := by simp at hlen; omega
    have hdrop : childItems.drop k = childItems[k] :: childItems.drop (k + 1) :=
      List.drop_eq_getElem_cons hk
    have hlen2 : k + 1 + rest.length ≤ childItems.length := by simp at hlen; omega
    simp only [drawLoop, List.getElem?_eq_getElem hk, QPoint.add_mul_neg]
    rw [ih (k + 1) p _ hlen2, hdrop]
    simp [List.enumFrom]

/-- C13 (as amended): `playlistItemOverlay::drawItem`, for every alignment mode
0..8, every center function, every scaling `p * zoomFactor` and a painter whose
translation on entry is `painter`, draws the children in child-list order,
child `i` with the painter translated from `painter` by the scaled center of
`childItems[i]` minus the scaled center of `boundingRect` (both of the layout
that `drawItem` has updated, each center scaled and rounded on its own), and
returns with the translation `painter` restored, each child's `drawItem`
restoring the translation it received.  Only for a scaling that distributes
over the difference of two points is that translation the scaled difference
`(center(childItems[i]) - center(boundingRect)) * zoomFactor`. -/
theorem overlay_drawItem_translations (ops : playlistItemClass σ)
    (centerRoundTL : QRect → QPoint) (scale : QPoint → QPoint)
    (updateChildList : playlistItemOverlay σ → playlistItemOverlay σ) (req : Bool)
    (s : playlistItemOverlay σ) (painter : QPoint)
    (hm : 0 ≤ (refreshChildList updateChildList req s).uiAlignmentMode ∧
      (refreshChildList updateChildList req s).uiAlignmentMode ≤ 8) :
    ∃ s1 events, updateLayout ops (refreshChildList updateChildList req s) true = some s1 ∧
      s1.childItems.length = s1.childList.length ∧
      drawItem ops centerRoundTL scale updateChildList req s painter =
        some (s1, painter, events) ∧
      events =
        (if s1.childList.isEmpty then [DrawEvent.infoText painter] else []) ++
        s1.childItems.enum.map (fun e => DrawEvent.child e.1
          ((painter.add (scale (centerRoundTL e.2))).sub
            (scale (centerRoundTL s1.boundingRect)))) ∧
      ((∀ a b, scale (a.sub b) = (scale a).sub (scale b)) →
        events =
          (if s1.childList.isEmpty then [DrawEvent.infoText painter] else []) ++
          s1.childItems.enum.map (fun e => DrawEvent.child e.1
            (painter.add (scale ((centerRoundTL e.2).sub
              (centerRoundTL s1.boundingRect)))))) := by
  obtain ⟨s1, hs1⟩ := updateLayout_total ops (refreshChildList updateChildList req s) true hm
  have hlen := updateLayout_length ops _ true s1 hs1
  have hcl := (updateLayout_startEndFrame ops _ true s1 hs1).2.1
  have hloop := drawLoop_eq centerRoundTL scale s1.childItems s1.childList 0
    (painter.add ((scale (centerRoundTL s1.boundingRect)).mul (-1)))
    (if s1.childList.isEmpty then [DrawEvent.infoText painter] else [])
    (by simp [hlen])
  have hev : (if s1.childList.isEmpty then [DrawEvent.infoText painter] else []) ++
      (((s1.childItems.drop 0).take s1.childList.length).enumFrom 0).map
        (fun e => DrawEvent.child e.1
          ((painter.add ((scale (centerRoundTL s1.boundingRect)).mul (-1))).add
            (scale (centerRoundTL e.2)))) =
      (if s1.childList.isEmpty then [DrawEvent.infoText painter] else []) ++
      s1.childItems.enum.map (fun e => DrawEvent.child e.1
        ((painter.add (scale (centerRoundTL e.2))).sub
          (scale (centerRoundTL s1.boundingRect)))) := by
    rw [← hlen]
    simp [List.enum, QPoint.add_neg_add]
  refine ⟨s1, _, hs1, hlen, ?_, rfl, ?_⟩
  · simp only [drawItem, hs1]
    rw [← hcl, hloop]
    simp only [QPoint.mul_neg_add, hev]
  · intro hadd
    simp only [QPoint.add_sub_assoc, hadd]

/-- C13 (witness): two children of size 2x2 laid out "Center" with offset
(2,0), drawn at zoom factor 0.5 by a painter translated to (7,9). -/
theorem overlay_drawItem_translations_witness :
    ∃ s1 events,
      drawItem playlistItemBase centerRoundTL (QPoint.scaleBy 1 2) (fun t => t) false
          (withChildren [(⟨2, 2⟩ : QSize), ⟨2, 2⟩] 4 ⟨2, 0⟩) ⟨7, 9⟩ =
        some (s1, ⟨7, 9⟩, events) ∧
      s1.childItems.length = s1.childList.length ∧
      events =
        (if s1.childList.isEmpty then [DrawEvent.infoText ⟨7, 9⟩] else []) ++
        s1.childItems.enum.map (fun e => DrawEvent.child e.1
          (((⟨7, 9⟩ : QPoint).add (QPoint.scaleBy 1 2 (centerRoundTL e.2))).sub
            (QPoint.scaleBy 1 2 (centerRoundTL s1.boundingRect)))) := by
  obtain ⟨s1, events, _, h2, h3, h4, _⟩ :=
    overlay_drawItem_translations playlistItemBase centerRoundTL (QPoint.scaleBy 1 2)
      (fun t => t) false (withChildren [(⟨2, 2⟩ : QSize), ⟨2, 2⟩] 4 ⟨2, 0⟩) ⟨7, 9⟩
      (by decide)
  exact ⟨s1, events, h3, h2, h4⟩

/-- C13 (counterexample): two children of size 2x2 laid out "Center" with
offset (2,0) get the rectangles `(0,0)..(1,1)` and `(2,0)..(3,1)` in the
bounding rectangle `(0,0)..(3,1)`, with centers (0,0), (2,0) and (1,0).  At
zoom factor 0.5, from a painter at (0,0), `drawItem` draws child 0 at (-1,0)
and child 1 at (0,0), whereas the scaled difference of the centers of child 1
and of the bounding rectangle is (1,0).  The same holds with `QRect::center`
as the center function. -/
theorem overlay_drawItem_not_scaled_difference :
    (drawItem playlistItemBase centerRoundTL (QPoint.scaleBy 1 2) (fun t => t) false
        (withChildren [(⟨2, 2⟩ : QSize), ⟨2, 2⟩] 4 ⟨2, 0⟩) ⟨0, 0⟩).map
        (fun o => (o.1.childItems, o.1.boundingRect, o.2.1, o.2.2)) =
      some ([⟨0, 0, 1, 1⟩, ⟨2, 0, 3, 1⟩], ⟨0, 0, 3, 1⟩, ⟨0, 0⟩,
        [DrawEvent.child 0 ⟨-1, 0⟩, DrawEvent.child 1 ⟨0, 0⟩]) ∧
    (⟨0, 0⟩ : QPoint).add (QPoint.scaleBy 1 2
      ((centerRoundTL ⟨2, 0, 3, 1⟩).sub (centerRoundTL ⟨0, 0, 3, 1⟩))) = ⟨1, 0⟩ ∧
    (drawItem playlistItemBase QRect.center (QPoint.scaleBy 1 2) (fun t => t) false
        (withChildren [(⟨2, 2⟩ : QSize), ⟨2, 2⟩] 4 ⟨2, 0⟩) ⟨0, 0⟩).map
        (fun o => o.2.2) =
      some [DrawEvent.child 0 ⟨-1, 0⟩, DrawEvent.child 1 ⟨0, 0⟩] ∧
    (⟨0, 0⟩ : QPoint).add (QPoint.scaleBy 1 2
      ((QRect.center ⟨2, 0, 3, 1⟩).sub (QRect.center ⟨0, 0, 3, 1⟩))) = ⟨1, 0⟩ := by
  decide

end OverlayDraw

section OverlayChildChanged

variable {σ : Type}

open playlistItemOverlay

/-- C14 (as amended): `playlistItemOverlay::childChanged(true)` recomputes the
layout with `updateLayout(false)` and then forwards the event, handing the
recomputed item to `playlistItemContainer::childChanged`; it succeeds for every
alignment mode 0..8.  `childChanged(false)` forwards the event without
recomputing the layout: the item handed on is the item as it was. -/
theorem overlay_childChanged_steps (ops : playlistItemClass σ)
    (containerChildChanged : playlistItemOverlay σ → Bool → playlistItemOverlay σ)
    (s : playlistItemOverlay σ) :
    childChanged ops containerChildChanged s true =
      (updateLayout ops s false).map (fun s1 =>
        (containerChildChanged s1 true,
          [ChildChangedStep.updateLayout, ChildChangedStep.forward true])) ∧
    ((0 ≤ s.uiAlignmentMode ∧ s.uiAlignmentMode ≤ 8) →
      ∃ s1, updateLayout ops s false = some s1 ∧
        childChanged ops containerChildChanged s true =
          some (containerChildChanged s1 true,
            [ChildChangedStep.updateLayout, ChildChangedStep.forward true])) ∧
    childChanged ops containerChildChanged s false =
      some (containerChildChanged s false, [ChildChangedStep.forward false]) := by
  refine ⟨?_, ?_, ?_⟩
  · unfold childChanged
    cases updateLayout ops s false <;> simp
  · intro hm
    obtain ⟨s1, hs1⟩ := updateLayout_total ops s false hm
    exact ⟨s1, hs1, by simp [childChanged, hs1]⟩
  · simp [childChanged]

/-- C14 (counterexample): an overlay with children of sizes 10x10 and 4x4 that
has not been laid out receives `childChanged(false)`: the event is forwarded
with no layout run, and the item handed on still has no placed rectangle and a
null bounding rectangle, whereas `updateLayout(false)` would place
`(-4,-4)..(5,5)` and `(-4,-4)..(-1,-1)`. -/
theorem overlay_childChanged_no_layout :
    (childChanged playlistItemBase (fun t _ => t)
        (withChildren [(⟨10, 10⟩ : QSize), ⟨4, 4⟩] 0 ⟨0, 0⟩) false).map
        (fun o => (o.2, o.1.childItems, o.1.boundingRect)) =
      some ([ChildChangedStep.forward false], [], QRect.null) ∧
    (updateLayout playlistItemBase
        (withChildren [(⟨10, 10⟩ : QSize), ⟨4, 4⟩] 0 ⟨0, 0⟩) false).map
        (fun s1 => (s1.childItems, s1.boundingRect)) =
      some ([⟨-4, -4, 5, 5⟩, ⟨-4, -4, -1, -1⟩], ⟨-4, -4, 5, 5⟩) := by
  decide

end OverlayChildChanged

section OverlayPlaylist

variable {σ : Type}

open playlistItemOverlay

theorem charDigit_digitChar (d : Nat) (h : d < 10) : charDigit (digitChar d) = some d := by
  interval_cases d <;> rfl

theorem digitChar_ne_minus (d : Nat) (h : d < 10) : digitChar d ≠ '-' := by
  interval_cases d <;> decide

theorem foldl_digitChar (L : List Nat) (hL : ∀ d ∈ L, d < 10) :
    ∀ a : Nat, (L.map digitChar).foldl
        (fun acc ch =>
          match acc, charDigit ch with
          | some a, some d => some (a * 10 + d)
          | _, _ => none)
        (some a) =
      some (L.foldl (fun a d => a * 10 + d) a) := by
  induction L with
  | nil => intro a; rfl
  | cons d L ih =>
    intro a
    have hd := charDigit_digitChar d (hL d (List.mem_cons_self _ _))
    simp only [List.map_cons, List.foldl_cons, hd]
    exact ih (fun x hx => hL x (List.mem_cons_of_mem _ hx)) _

theorem foldl_reverse_ofDigits (L : List Nat) :
    L.reverse.foldl (fun a d => a * 10 + d) 0 = Nat.ofDigits 10 L := by
  induction L with
  | nil => rfl
  | cons d L ih =>
    rw [List.reverse_cons, List.foldl_append, ih, Nat.ofDigits_cons]
    simp only [List.foldl_cons, List.foldl_nil]
    omega

theorem natChars_cons (n : Nat) :
    ∃ d rest, d < 10 ∧ natChars n = digitChar d :: rest := by
  unfold natChars
  split
  · exact ⟨0, [], by decide, rfl⟩
  · rename_i hn
    have hne : Nat.digits 10 n ≠ [] := Nat.digits_ne_nil_iff_ne_zero.mpr hn
    have hrev : (Nat.digits 10 n).reverse ≠ [] := by simpa using hne
    cases hL : (Nat.digits 10 n).reverse with
    | nil => exact absurd hL hrev
    | cons d rest =>
      refine ⟨d, rest.map digitChar, ?_, by simp⟩
      have hmem : d ∈ Nat.digits 10 n := by
        have : d ∈ (Nat.digits 10 n).reverse := by rw [hL]; exact List.mem_cons_self _ _
        simpa using this
      exact Nat.digits_lt_base (by decide) hmem

theorem digitsValue_natChars (n : Nat) : digitsValue (natChars n) = some n := by
  obtain ⟨d, rest, _, hcons⟩ := natChars_cons n
  have hfold : digitsValue (natChars n) = (natChars n).foldl
      (fun acc ch =>
        match acc, charDigit ch with
        | some a, some d => some (a * 10 + d)
        | _, _ => none)
      (some 0) := by
    rw [hcons]; rfl
  rw [hfold]
  unfold natChars
  split
  · rename_i h0; subst h0; rfl
  · rw [foldl_digitChar _ (fun x hx => Nat.digits_lt_base (by decide)
      (by simpa using hx)) 0, foldl_reverse_ofDigits, Nat.ofDigits_digits]

theorem toInt_number (n : Int) (h : -2147483648 ≤ n ∧ n ≤ 2147483647) :
    QString.toInt (QString.number n) = n := by
  have hv := digitsValue_natChars n.natAbs
  obtain ⟨d, rest, hd, hcons⟩ := natChars_cons n.natAbs
  unfold QString.number
  by_cases hneg : n < 0
  · rw [if_pos hneg]
    unfold QString.toInt
    simp only [hv]
    have hle : n.natAbs ≤ 2147483648 := by omega
    rw [if_pos hle]
    omega
  · rw [if_neg hneg]
    unfold QString.toInt
    simp only
    split
    · rename_i ds heq
      rw [hcons] at heq
      injection heq with h1 h2
      exact absurd h1 (digitChar_ne_minus d hd)
    · simp only [hv]
      have hle : n.natAbs ≤ 2147483647 := by omega
      rw [if_pos hle]
      omega

theorem findChildValue_saved (base rest : QDomElementYUView) (tag text : String)
    (hbase : ∀ p ∈ base, p.1 ≠ tag) :
    QDomElementYUView.findChildValue (base ++ (tag, text) :: rest) tag = text := by
  have hnone : base.find? (fun p => p.1 == tag) = none := by
    rw [List.find?_eq_none]
    intro p hp
    simpa using hbase p hp
  simp [QDomElementYUView.findChildValue, List.find?_append, hnone]

end OverlayPlaylist

section OverlayPlaylistRoundTrip

variable {σ : Type}

open playlistItemOverlay

/-- C15: for an overlay whose `alignmentMode` and `manualAlignment` coordinates
are 32-bit `int` values, the overlay that `newPlaylistItemOverlay` reconstructs
from the element written by `savePlaylist` has the same `alignmentMode` and the
same `manualAlignment`, the base class properties written first not using the
three tag names: the decimal text written by `QString::number` is parsed back
by `toInt` to the same integer. -/
theorem overlay_playlist_roundtrip (baseProperties childElements : QDomElementYUView)
    (s : playlistItemOverlay σ) (ui : Int)
    (hbase : ∀ p ∈ baseProperties,
      p.1 ≠ "alignmentMode" ∧ p.1 ≠ "manualAlignmentX" ∧ p.1 ≠ "manualAlignmentY")
    (hm : -2147483648 ≤ s.alignmentMode ∧ s.alignmentMode ≤ 2147483647)
    (hx : -2147483648 ≤ s.manualAlignment.xp ∧ s.manualAlignment.xp ≤ 2147483647)
    (hy : -2147483648 ≤ s.manualAlignment.yp ∧ s.manualAlignment.yp ≤ 2147483647) :
    (newPlaylistItemOverlay ui (savePlaylist baseProperties childElements s) :
      playlistItemOverlay σ).alignmentMode = s.alignmentMode ∧
    (newPlaylistItemOverlay ui (savePlaylist baseProperties childElements s) :
      playlistItemOverlay σ).manualAlignment = s.manualAlignment ∧
    QString.toInt (QString.number s.alignmentMode) = s.alignmentMode := by
  have h1 : QDomElementYUView.findChildValue (savePlaylist baseProperties childElements s)
      "alignmentMode" = QString.number s.alignmentMode := by
    have := findChildValue_saved baseProperties
      (("manualAlignmentX", QString.number s.manualAlignment.xp) ::
        ("manualAlignmentY", QString.number s.manualAlignment.yp) :: childElements)
      "alignmentMode" (QString.number s.alignmentMode) (fun p hp => (hbase p hp).1)
    simpa [savePlaylist, QDomElementYUView.appendProperiteChild] using this
  have h2 : QDomElementYUView.findChildValue (savePlaylist baseProperties childElements s)
      "manualAlignmentX" = QString.number s.manualAlignment.xp := by
    have := findChildValue_saved
      (baseProperties ++ [("alignmentMode", QString.number s.alignmentMode)])
      (("manualAlignmentY", QString.number s.manualAlignment.yp) :: childElements)
      "manualAlignmentX" (QString.number s.manualAlignment.xp) (by
        intro p hp
        rcases List.mem_append.mp hp with h | h
        · exact (hbase p h).2.1
        · simp only [List.mem_singleton] at h
          subst h
          show "alignmentMode" ≠ "manualAlignmentX"
          decide)
    simpa [savePlaylist, QDomElementYUView.appendProperiteChild] using this
  have h3 : QDomElementYUView.findChildValue (savePlaylist baseProperties childElements s)
      "manualAlignmentY" = QString.number s.manualAlignment.yp := by
    have := findChildValue_saved
      (baseProperties ++ [("alignmentMode", QString.number s.alignmentMode),
        ("manualAlignmentX", QString.number s.manualAlignment.xp)])
      childElements
      "manualAlignmentY" (QString.number s.manualAlignment.yp) (by
        intro p hp
        rcases List.mem_append.mp hp with h | h
        · exact (hbase p h).2.2
        · simp only [List.mem_cons, List.mem_singleton, List.not_mem_nil, or_false] at h
          rcases h with h | h
          · subst h
            show "alignmentMode" ≠ "manualAlignmentY"
            decide
          · subst h
            show "manualAlignmentX" ≠ "manualAlignmentY"
            decide)
    simpa [savePlaylist, QDomElementYUView.appendProperiteChild] using this
  refine ⟨?_, ?_, toInt_number _ hm⟩
  · simp only [newPlaylistItemOverlay, h1, toInt_number _ hm]
  · simp only [newPlaylistItemOverlay, h2, h3, toInt_number _ hx, toInt_number _ hy]

/-- C15 (witness): an overlay with alignment mode 4 and offset (10,-5), saved
after a base class property "ID". -/
theorem overlay_playlist_roundtrip_witness :
    (newPlaylistItemOverlay 0 (savePlaylist [("ID", "3")] []
      (withChildren ([] : List QSize) 4 ⟨10, -5⟩)) : playlistItemOverlay QSize).alignmentMode
      = 4 ∧
    (newPlaylistItemOverlay 0 (savePlaylist [("ID", "3")] []
      (withChildren ([] : List QSize) 4 ⟨10, -5⟩)) : playlistItemOverlay QSize).manualAlignment
      = ⟨10, -5⟩ :=
  have h := overlay_playlist_roundtrip [("ID", "3")] []
    (withChildren ([] : List QSize) 4 ⟨10, -5⟩) 0 (by decide) (by decide) (by decide)
    (by decide)
  ⟨h.1, h.2.1⟩

end OverlayPlaylistRoundTrip

section Identifiers

/-- C16: after `resetPlaylistID()` `getPlaylistID()` returns 4294967295, the
`unsigned int` value of `-1`, whatever the identifier was before; `getID()` is
unchanged; and a second `resetPlaylistID()` changes nothing. -/
theorem resetPlaylistID_unset (s : playlistItem) :
    s.resetPlaylistID.getPlaylistID = 4294967295 ∧
    s.resetPlaylistID.getID = s.getID ∧
    s.resetPlaylistID.resetPlaylistID = s.resetPlaylistID := by
  refine ⟨?_, rfl, rfl⟩
  simp only [playlistItem.resetPlaylistID, playlistItem.getPlaylistID]
  decide

end Identifiers

section OverlayNeedsLoadingCall

variable {σ : Type}

open playlistItemOverlay

theorem needsLoadingScan_pure (ops : playlistItemClass σ)
    (call : σ → Int → Bool → itemLoadingState × σ)
    (hpure : ∀ c F raw, call c F raw = (ops.needsLoading c F raw, c))
    (F : Int) (raw : Bool) (st : itemLoadingState) (l : List σ) :
    needsLoadingScan call F raw st l = (needsLoadingLoop ops F raw st l, l) := by
  induction l with
  | nil => rfl
  | cons c rest ih =>
    by_cases h : ops.needsLoading c F raw = st
    · simp [needsLoadingScan, needsLoadingLoop, hpure, h]
    · simp [needsLoadingScan, needsLoadingLoop, hpure, h, ih]

/-- C17: for an overlay whose children's `needsLoading` is free of side
effects (each call returns the child unchanged), a call of
`playlistItemOverlay::needsLoading(F, raw)` leaves the overlay and its children
unchanged and returns the value of the aggregation over the children, so a
second call with the same arguments returns the same value; the base
implementation `playlistItem::needsLoading` returns `LoadingNotNeeded` for all
arguments. -/
theorem overlay_needsLoading_pure (ops : playlistItemClass σ)
    (call : σ → Int → Bool → itemLoadingState × σ)
    (s : playlistItemOverlay σ) (F : Int) (raw : Bool)
    (hpure : ∀ c F raw, call c F raw = (ops.needsLoading c F raw, c)) :
    (needsLoadingCall call s F raw).2 = s ∧
    (needsLoadingCall call s F raw).1 = needsLoading ops s F raw ∧
    (needsLoadingCall call (needsLoadingCall call s F raw).2 F raw).1 =
      (needsLoadingCall call s F raw).1 ∧
    (∀ (item : QSize) (frameIdx : Int) (loadRawValues : Bool),
      playlistItemBase.needsLoading item frameIdx loadRawValues = LoadingNotNeeded) := by
  have h1 := needsLoadingScan_pure ops call hpure F raw LoadingNeeded s.childList
  have h2 := needsLoadingScan_pure ops call hpure F raw LoadingNeededDoubleBuffer s.childList
  have hstate : (needsLoadingCall call s F raw).2 = s := by
    simp only [needsLoadingCall, h1, h2]
    split_ifs <;> rfl
  have hval : (needsLoadingCall call s F raw).1 = needsLoading ops s F raw := by
    simp only [needsLoadingCall, needsLoading, h1, h2]
    split_ifs <;> rfl
  exact ⟨hstate, hval, by rw [hstate], fun _ _ _ => rfl⟩

/-- C17 (witness): an overlay of two children with the base implementation of
`needsLoading`. -/
theorem overlay_needsLoading_pure_witness :
    (needsLoadingCall (fun (c : QSize) _ _ => (LoadingNotNeeded, c))
      (withChildren [(⟨10, 10⟩ : QSize), ⟨4, 4⟩] 0 ⟨0, 0⟩) 3 false).2 =
      withChildren [(⟨10, 10⟩ : QSize), ⟨4, 4⟩] 0 ⟨0, 0⟩ ∧
    (needsLoadingCall (fun (c : QSize) _ _ => (LoadingNotNeeded, c))
      (withChildren [(⟨10, 10⟩ : QSize), ⟨4, 4⟩] 0 ⟨0, 0⟩) 3 false).1 = LoadingNotNeeded :=
  have h := overlay_needsLoading_pure playlistItemBase
    (fun (c : QSize) _ _ => (LoadingNotNeeded, c))
    (withChildren [(⟨10, 10⟩ : QSize), ⟨4, 4⟩] 0 ⟨0, 0⟩) 3 false (fun _ _ _ => rfl)
  ⟨h.1, h.2.1⟩

end OverlayNeedsLoadingCall

section OverlayOffset

variable {σ : Type}

open playlistItemOverlay

theorem translate_zero (r : QRect) : r.translate ⟨0, 0⟩ = r := by
  cases r; simp [QRect.translate]

theorem placeChild_offset (ops : playlistItemClass σ) (mode : Int) (off : QPoint) (fr : QRect)
    (c : σ) :
    placeChild ops mode off fr c =
      (placeChild ops mode ⟨0, 0⟩ fr c).map (fun r => r.translate off) := by
  simp only [placeChild]
  rcases h : alignTarget mode fr ((QRect.null.setSize (ops.getSize c)).moveCenter ⟨0, 0⟩)
    with _ | a <;> simp [translate_zero]

theorem placedRects_offset (ops : playlistItemClass σ) (mode : Int)
    (hm : 0 ≤ mode ∧ mode ≤ 8) (off : QPoint) (fr : QRect) (rest : List σ) :
    placedRects ops mode off fr rest =
      (placedRects ops mode ⟨0, 0⟩ fr rest).map (fun r => r.translate off) := by
  unfold placedRects
  rw [List.map_map]
  apply List.map_congr_left
  intro c _
  obtain ⟨r, hr⟩ := placeChild_isSome ops mode hm ⟨0, 0⟩ fr c
  simp [placeChild_offset ops mode off fr c, hr]

/-- C18: for a non-empty overlay, every alignment mode 0..8 and every manual
offset (dx,dy), a forced layout places for each non-first child the rectangle
that the same children and mode get with offset (0,0), translated by (dx,dy),
and for the first child the same rectangle as with offset (0,0). -/
theorem overlay_offset_displacement (ops : playlistItemClass σ) (s : playlistItemOverlay σ)
    (first : σ) (rest : List σ) (hcl : s.childList = first :: rest)
    (hm : 0 ≤ s.uiAlignmentMode ∧ s.uiAlignmentMode ≤ 8) :
    ∃ s1 s0, updateLayout ops s false = some s1 ∧
      updateLayout ops { s with manualAlignment := ⟨0, 0⟩ } false = some s0 ∧
      s1.childItems.length = s.childList.length ∧
      s0.childItems.length = s.childList.length ∧
      s1.childItems[0]? = s0.childItems[0]? ∧
      ∀ i, 1 ≤ i →
        s1.childItems[i]? = (s0.childItems[i]?).map (fun r => r.translate s.manualAlignment) := by
  have h1 := updateLayout_eq ops s false first rest hcl hm (Or.inl rfl)
  have h0 := updateLayout_eq ops { s with manualAlignment := ⟨0, 0⟩ } false first rest hcl hm
    (Or.inl rfl)
  refine ⟨_, _, h1, h0, ?_, ?_, ?_, ?_⟩
  · simp [placedRects_length, hcl]
  · simp [placedRects_length, hcl]
  · simp
  · intro i hi
    obtain ⟨j, rfl⟩ : ∃ j, i = j + 1 := ⟨i - 1, by omega⟩
    simp only [List.getElem?_cons_succ]
    rw [placedRects_offset ops _ hm s.manualAlignment, List.getElem?_map]

/-- C18 (witness): three children laid out "Bottom Right" with offset (10,-5). -/
theorem overlay_offset_displacement_witness :
    ∃ s1 s0, updateLayout playlistItemBase
        (withChildren [(⟨640, 480⟩ : QSize), ⟨320, 240⟩, ⟨100, 50⟩] 8 ⟨10, -5⟩) false =
          some s1 ∧
      updateLayout playlistItemBase
        { withChildren [(⟨640, 480⟩ : QSize), ⟨320, 240⟩, ⟨100, 50⟩] 8 ⟨10, -5⟩ with
          manualAlignment := ⟨0, 0⟩ } false = some s0 ∧
      s1.childItems.length = 3 ∧ s0.childItems.length = 3 ∧
      s1.childItems[0]? = s0.childItems[0]? ∧
      ∀ i, 1 ≤ i →
        s1.childItems[i]? = (s0.childItems[i]?).map (fun r => r.translate ⟨10, -5⟩) :=
  overlay_offset_displacement playlistItemBase
    (withChildren [(⟨640, 480⟩ : QSize), ⟨320, 240⟩, ⟨100, 50⟩] 8 ⟨10, -5⟩)
    ⟨640, 480⟩ [⟨320, 240⟩, ⟨100, 50⟩] rfl (by decide)

/-- C19: for a non-empty overlay, every alignment mode 0..8 and every manual
offset, a forced layout places for every child `i` a rectangle `childItems[i]`
whose size is the child's natural size `getSize()`, and the rectangle
`childItems[0]` of the first child has center (0,0). -/
theorem overlay_rect_sizes (ops : playlistItemClass σ) (s : playlistItemOverlay σ)
    (first : σ) (rest : List σ) (hcl : s.childList = first :: rest)
    (hm : 0 ≤ s.uiAlignmentMode ∧ s.uiAlignmentMode ≤ 8) :
    ∃ s1 r0, updateLayout ops s false = some s1 ∧
      s1.childItems.length = s.childList.length ∧
      (∀ (i : Nat) (c : σ), s.childList[i]? = some c →
        ∃ r : QRect, s1.childItems[i]? = some r ∧ r.size = ops.getSize c) ∧
      s1.childItems[0]? = some r0 ∧ r0.center = ⟨0, 0⟩ := by
  have h1 := updateLayout_eq ops s false first rest hcl hm (Or.inl rfl)
  refine ⟨_, firstItemRect ops first, h1, ?_, ?_, ?_, firstItemRect_center ops first⟩
  · simp [placedRects_length, hcl]
  · intro i c hic
    rw [hcl] at hic
    cases i with
    | zero =>
      simp only [List.getElem?_cons_zero, Option.some.injEq] at hic
      subst hic
      refine ⟨firstItemRect ops first, by simp, ?_⟩
      have hs := firstItemRect_size ops first
      cases hsz : ops.getSize first
      simp only [QRect.size, QRect.width, QRect.height, QSize.mk.injEq]
      rw [hsz] at hs
      exact hs
    | succ j =>
      simp only [List.getElem?_cons_succ] at hic
      obtain ⟨r, hr⟩ := placeChild_isSome ops s.uiAlignmentMode hm s.manualAlignment
        (firstItemRect ops first) c
      refine ⟨r, ?_, ?_⟩
      · simp only [List.getElem?_cons_succ]
        unfold placedRects
        rw [List.getElem?_map, hic]
        simp [hr]
      · have hs := placeChild_size ops _ _ _ c r hr
        cases hsz : ops.getSize c
        simp only [QRect.size, QRect.width, QRect.height, QSize.mk.injEq]
        rw [hsz] at hs
        exact hs
  · simp

/-- C19 (witness): three children laid out "Center Right" with offset (10,-5). -/
theorem overlay_rect_sizes_witness :
    ∃ s1 r0, updateLayout playlistItemBase
        (withChildren [(⟨640, 480⟩ : QSize), ⟨320, 240⟩, ⟨100, 50⟩] 5 ⟨10, -5⟩) false =
          some s1 ∧
      s1.childItems.length = 3 ∧
      (∀ (i : Nat) (c : QSize), [(⟨640, 480⟩ : QSize), ⟨320, 240⟩, ⟨100, 50⟩][i]? = some c →
        ∃ r : QRect, s1.childItems[i]? = some r ∧ r.size = c) ∧
      s1.childItems[0]? = some r0 ∧ r0.center = ⟨0, 0⟩ :=
  overlay_rect_sizes playlistItemBase
    (withChildren [(⟨640, 480⟩ : QSize), ⟨320, 240⟩, ⟨100, 50⟩] 5 ⟨10, -5⟩)
    ⟨640, 480⟩ [⟨320, 240⟩, ⟨100, 50⟩] rfl (by decide)

/-- C20: whenever `playlistItemOverlay::updateLayout` returns, for either value
of `checkNumber` and any prior state, `childItems` holds as many rectangles as
`childList` holds children (none for an empty overlay), so `childItems[i]`
exists for every `i < childList.count()` and `getPixelValues` reads in range;
and `updateLayout` does return for every alignment mode 0..8. -/
theorem overlay_childItems_count (ops : playlistItemClass σ) (s : playlistItemOverlay σ)
    (cn : Bool) :
    (∀ s1, updateLayout ops s cn = some s1 →
      s1.childList = s.childList ∧
      s1.childItems.length = s1.childList.length ∧
      (∀ i, i < s1.childList.length → ∃ r, s1.childItems[i]? = some r) ∧
      (∀ p frameIdx, ∃ sets, getPixelValues ops s1 p frameIdx = some sets)) ∧
    ((0 ≤ s.uiAlignmentMode ∧ s.uiAlignmentMode ≤ 8) →
      ∃ s1, updateLayout ops s cn = some s1 ∧
        s1.childItems.length = s1.childList.length) ∧
    (s.childList = [] →
      ∃ s1, updateLayout ops s cn = some s1 ∧
        s1.childItems.length = 0 ∧ s1.childList.length = 0) := by
  refine ⟨?_, ?_, ?_⟩
  · intro s1 h
    have hlen := updateLayout_length ops s cn s1 h
    refine ⟨(updateLayout_startEndFrame ops s cn s1 h).2.1, hlen, ?_, ?_⟩
    · intro i hi
      have hi2 : i < s1.childItems.length := by omega
      exact ⟨s1.childItems[i], List.getElem?_eq_getElem hi2⟩
    · intro p frameIdx
      exact ⟨_, getPixelValuesLoop_eq ops s1.childItems _ frameIdx s1.childList 0 []
        (by simp [hlen])⟩
  · intro hm
    obtain ⟨s1, hs1⟩ := updateLayout_total ops s cn hm
    exact ⟨s1, hs1, updateLayout_length ops s cn s1 hs1⟩
  · intro hnil
    refine ⟨{ s with childItems := [], boundingRect := QRect.null }, ?_, rfl, by simp [hnil]⟩
    unfold updateLayout
    simp [hnil]

end OverlayOffset

section Matrix

variable {α : Type}

theorem matrix.toSize_of_nonneg (n : Int) (h0 : 0 ≤ n) (h1 : n ≤ 2147483647) :
    ((matrix.toSize n : Nat) : Int) = n := by
  unfold matrix.toSize
  have h : n % 2 ^ 64 = n := Int.emod_eq_of_lt h0 (by omega)
  rw [h]
  exact Int.toNat_of_nonneg h0

theorem matrix.offset_bounds (c r i j : Int) (hi0 : 0 ≤ i) (hic : i < c) (hj0 : 0 ≤ j)
    (hjr : j < r) : 0 ≤ i * r + j ∧ i * r + j < c * r := by
  have hr : 0 ≤ r := by omega
  have h1 : 0 ≤ i * r := Int.mul_nonneg hi0 hr
  have h2 : (i + 1) * r ≤ c * r := Int.mul_le_mul_of_nonneg_right (by omega) hr
  have h3 : (i + 1) * r = i * r + r := by ring
  omega

theorem matrix.offset_injective (r i j i2 j2 : Int) (hj0 : 0 ≤ j) (hjr : j < r)
    (hk0 : 0 ≤ j2) (hkr : j2 < r) (h : i * r + j = i2 * r + j2) : i = i2 ∧ j = j2 := by
  have hr : 0 < r := by omega
  have hj : j = j2 := by
    have e1 : (i * r + j) % r = j := by
      rw [Int.add_comm, Int.add_mul_emod_self]
      exact Int.emod_eq_of_lt hj0 hjr
    have e2 : (i2 * r + j2) % r = j2 := by
      rw [Int.add_comm, Int.add_mul_emod_self]
      exact Int.emod_eq_of_lt hk0 hkr
    rw [h] at e1
    omega
  refine ⟨?_, hj⟩
  subst hj
  have h' : i * r = i2 * r := by omega
  exact Int.eq_of_mul_eq_mul_right (by omega) h'

/-- C21: for `c >= 0` columns and `r >= 0` rows whose product fits an `int`, a
matrix constructed with `matrix(c, r)` or resized with `resize(c, r)` holds
exactly `c*r` elements in `m_data`; for every `0 <= i < c` and `0 <= j < r` the
offset `i*m_rows + j` of `m[i][j]` lies inside `m_data`, so the element exists;
and two pairs `(i,j)` in that range with the same offset are equal. -/
theorem matrix_index_in_bounds (dflt : α) (m0 : matrix α) (c r : Int)
    (hc : 0 ≤ c) (hr : 0 ≤ r) (hov : c * r ≤ 2147483647) :
    (((matrix.construct dflt c r).m_data.length : Nat) : Int) = c * r ∧
    (((matrix.resize dflt m0 c r).m_data.length : Nat) : Int) = c * r ∧
    ∀ m : matrix α, (m = matrix.construct dflt c r ∨ m = matrix.resize dflt m0 c r) →
      ∀ i j : Int, 0 ≤ i → i < c → 0 ≤ j → j < r →
        (0 ≤ m.offset i j ∧ m.offset i j < (m.m_data.length : Int)) ∧
        (∃ x, m.elem i j = some x) ∧
        ∀ i2 j2 : Int, 0 ≤ i2 → i2 < c → 0 ≤ j2 → j2 < r →
          m.offset i j = m.offset i2 j2 → i = i2 ∧ j = j2 := by
  have hprod : 0 ≤ c * r := Int.mul_nonneg hc hr
  have hsz := matrix.toSize_of_nonneg (c * r) hprod hov
  have hsz2 : ((matrix.toSize (r * c) : Nat) : Int) = c * r := by
    rw [Int.mul_comm r c]; exact hsz
  have hlen1 : (((matrix.construct dflt c r).m_data.length : Nat) : Int) = c * r := by
    simp only [matrix.construct, List.length_replicate]
    exact hsz
  have hlen2 : (((matrix.resize dflt m0 c r).m_data.length : Nat) : Int) = c * r := by
    simp only [matrix.resize, List.length_append, List.length_take, List.length_replicate]
    omega
  refine ⟨hlen1, hlen2, ?_⟩
  intro m hm i j hi0 hic hj0 hjr
  have hrows : m.m_rows = r := by
    rcases hm with h | h <;> subst h <;> rfl
  have hlen : ((m.m_data.length : Nat) : Int) = c * r := by
    rcases hm with h | h <;> subst h <;> assumption
  have hb := matrix.offset_bounds c r i j hi0 hic hj0 hjr
  have hoff : m.offset i j = i * r + j := by simp [matrix.offset, hrows]
  refine ⟨by rw [hoff, hlen]; exact hb, ?_, ?_⟩
  · have hlt : (m.offset i j).toNat < m.m_data.length := by
      rw [hoff]; omega
    refine ⟨m.m_data[(m.offset i j).toNat], ?_⟩
    unfold matrix.elem
    rw [if_pos (by rw [hoff]; exact hb.1)]
    exact List.getElem?_eq_getElem hlt
  · intro i2 j2 _ _ hk0 hkr h
    simp only [matrix.offset, hrows] at h
    exact matrix.offset_injective r i j i2 j2 hj0 hjr hk0 hkr h

/-- C21 (witness): a matrix of 3 columns and 4 rows resized from one of 2
columns and 2 rows. -/
theorem matrix_index_in_bounds_witness :
    (((matrix.construct (0 : Nat) 3 4).m_data.length : Nat) : Int) = 3 * 4 ∧
    (((matrix.resize (0 : Nat) (matrix.construct 0 2 2) 3 4).m_data.length : Nat) : Int) =
      3 * 4 :=
  have h := matrix_index_in_bounds (0 : Nat) (matrix.construct 0 2 2) 3 4 (by decide)
    (by decide) (by decide)
  ⟨h.1, h.2.1⟩

end Matrix

end YUView
